import Mathlib

/-!
Verification development for the Prometheus system-monitoring pipeline
(`write_into_db.py`, `sheet_to_looker.py`, `monthly.py`, `main.py`).

Shallow embedding conventions:
* Python strings are modelled as `List Char` (`Str`).
* A pandas DataFrame is a `Df`: an explicit column list plus a list of rows;
  a row is an association list from column name to `Cell`.  A missing key in
  a row models a NaN cell.
* 64-bit floats are modelled as exact rationals `ℚ`; float rounding/overflow
  is outside the scope of the verified claims.
* A raised Python exception is modelled by `Except.error` (for functions that
  can raise) or by the `Option String` error component of a collector result.
* `re.match` of the two concrete pattern shapes used by the scraper
  (`NAME\{([^}]*)\} ([0-9.e+-]+)` and the memory variant with an optional
  label block) is embedded directly as `matchLine`; `re.findall` of
  `(\w+)="(.*?)"` is embedded as `findLabels`; Python `float()` on the
  characters reachable from the value class is embedded as `pyFloat`.
* Timestamps handled by the reporting scripts are modelled as naturals that
  are already floored to the minute; the calendar month of a timestamp is an
  explicit function parameter `mo`.
-/

deriving instance DecidableEq for Except

namespace SysMon

/-- Python strings are modelled as lists of characters. -/
abbrev Str := List Char

/-- Shorthand turning a Lean string literal into the `Str` model. -/
def L (s : String) : Str := s.toList

/-- The brace, quote and newline characters, written via code points. -/
def lbrace : Char := Char.ofNat 123

def rbrace : Char := Char.ofNat 125

def qt : Char := Char.ofNat 34

def nl : Char := Char.ofNat 10

/-- A scalar cell of a DataFrame: a string or a (float, modelled exact) number. -/
inductive Cell where
  | str (s : Str)
  | num (q : ℚ)
deriving DecidableEq, Repr

/-- A DataFrame row: association list from column name to cell.
A key that is absent models a NaN cell of that row. -/
abbrev Record := List (Str × Cell)

/-- First-match association lookup (Python `dict`/pandas cell access). -/
def alookup : Record → Str → Option Cell
  | [], _ => none
  | (k0, v) :: r, k => if k0 = k then some v else alookup r k

/-- Set a key in a record: replace the first occurrence in place (Python dict
update keeps the key position), append at the end when absent. -/
def setCol : Record → Str → Cell → Record
  | [], k, v => [(k, v)]
  | (k0, v0) :: r, k, v => if k0 = k then (k, v) :: r else (k0, v0) :: setCol r k v

/-- Remove a key from a record (assigning a NaN cell in the model). -/
def delCol (r : Record) (k : Str) : Record := r.filter (fun p => p.1 ≠ k)

/-- Last value stored under a key, if any. -/
def lastLookup (l : List (Str × Cell)) (k : Str) : Option Cell :=
  ((l.filter (fun p => p.1 = k)).map Prod.snd).getLast?

/-- Fuel-driven worker for `dedupPairs` (structural recursion so that the
kernel can evaluate it; the fuel is always sufficient at the call site). -/
def dedupPairsGo : ℕ → List (Str × Cell) → Record
  | 0, _ => []
  | _, [] => []
  | fuel + 1, (k, v) :: rest =>
      (k, (lastLookup rest k).getD v) :: dedupPairsGo fuel (rest.filter (fun p => p.1 ≠ k))

/-- Python `dict(pairs)`: key order is first occurrence, value is the last
one assigned to the key. -/
def dedupPairs (l : List (Str × Cell)) : Record := dedupPairsGo l.length l

/-- Column list of `pd.DataFrame(records)`: first appearance order of keys. -/
def collectCols (rows : List Record) : List Str :=
  rows.foldl (fun acc r =>
    r.foldl (fun acc2 kv => if kv.1 ∈ acc2 then acc2 else acc2 ++ [kv.1]) acc) []

/-- A pandas DataFrame: explicit columns plus rows.  An empty frame can still
carry columns (as after `df["instance"] = ...` on an empty frame). -/
structure Df where
  cols : List Str
  rows : List Record
deriving DecidableEq, Repr

/-- `pd.DataFrame(records)`. -/
def dfOfRecords (rows : List Record) : Df := ⟨collectCols rows, rows⟩

/-- `df.empty` for the frames of this program (row count zero). -/
def Df.isEmptyDf (d : Df) : Bool := d.rows.isEmpty

/-- Per-row effect of a column assignment: a computed NaN removes the key. -/
def setCell (k : Str) (f : Record → Option Cell) (r : Record) : Record :=
  match f r with
  | some v => setCol r k v
  | none => delCol r k

/-- Column assignment `df[k] = f(row)` where `f` may produce NaN (`none`). -/
def setColAll (d : Df) (k : Str) (f : Record → Option Cell) : Df :=
  ⟨if k ∈ d.cols then d.cols else d.cols ++ [k], d.rows.map (setCell k f)⟩

/-- Scalar column assignment `df[k] = c`. -/
def setColConst (d : Df) (k : Str) (c : Cell) : Df :=
  setColAll d k (fun _ => some c)

/-- `df.rename(columns=m)`: column names and row keys are remapped. -/
def renameDf (d : Df) (m : List (Str × Str)) : Df :=
  let f : Str → Str := fun c => ((m.find? (fun p => p.1 = c)).map Prod.snd).getD c
  ⟨d.cols.map f, d.rows.map (fun r => r.map (fun kv => (f kv.1, kv.2)))⟩

/-- `df[[cs]]`: raises `KeyError` when a requested column is absent. -/
def selectCols (d : Df) (cs : List Str) : Except String Df :=
  if cs.all (fun c => c ∈ d.cols) then
    .ok ⟨cs, d.rows.map (fun r => r.filter (fun kv => kv.1 ∈ cs))⟩
  else .error "KeyError: column not found"

end SysMon

namespace SysMon

/-! ## Exposition parser (`parse_metric` in `write_into_db.py`) -/

/-- Character class `\w` for ASCII inputs (`[A-Za-z0-9_]`). -/
def isWordChar (c : Char) : Bool := c.isAlphanum || c = '_'

/-- Character class `[0-9.e+-]` of the value group of every scrape pattern. -/
def isValueChar (c : Char) : Bool :=
  c.isDigit || c = '.' || c = 'e' || c = '+' || c = '-'

/-- Consume an exact literal prefix, returning the remainder. -/
def chopLit : Str → Str → Option Str
  | [], s => some s
  | _ :: _, [] => none
  | p :: ps, a :: s => if a = p then chopLit ps s else none

/-- Split at the first occurrence of a character: `some (before, after)`. -/
def splitAtChar (c : Char) : Str → Option (Str × Str)
  | [] => none
  | a :: s =>
      if a = c then some ([], s)
      else (splitAtChar c s).map (fun p => (a :: p.1, p.2))

/-- The line boundaries of Python `str.splitlines`: `\n`, `\r` (with `\r\n`
counting as one boundary), `\v`, `\f`, FS/GS/RS (0x1c-0x1e), NEL (0x85) and
LS/PS (U+2028/U+2029). -/
def isLineBreak (c : Char) : Bool :=
  c = Char.ofNat 10 || c = Char.ofNat 13 || c = Char.ofNat 11 || c = Char.ofNat 12
    || c = Char.ofNat 28 || c = Char.ofNat 29 || c = Char.ofNat 30
    || c = Char.ofNat 133 || c = Char.ofNat 8232 || c = Char.ofNat 8233

/-- Split at every line boundary, treating `\r\n` as a single boundary; a
trailing boundary still yields a trailing empty piece here (the wrapper
drops it, as `str.splitlines` does). -/
def splitLinesCore : Str → List Str
  | [] => [[]]
  | c :: s =>
      if c = Char.ofNat 13 then
        match s with
        | c2 :: s2 =>
            if c2 = Char.ofNat 10 then [] :: splitLinesCore s2
            else [] :: splitLinesCore (c2 :: s2)
        | [] => [[], []]
      else if isLineBreak c then [] :: splitLinesCore s
      else
        match splitLinesCore s with
        | [] => [[c]]
        | t :: ts => (c :: t) :: ts

/-- Python `str.splitlines`: the empty string yields no lines, and a single
trailing line boundary yields no extra empty line. -/
def pySplitlines (s : Str) : List Str :=
  if s = [] then []
  else
    let p := splitLinesCore s
    if p.getLast? = some [] then p.dropLast else p

/-- The ` ([0-9.e+-]+)` tail of the line regex: a space, then a nonempty
greedy run of value-class characters (trailing junk is ignored, as with
`re.match`). -/
def matchValue : Str → Option Str
  | ' ' :: rest =>
      let v := rest.takeWhile isValueChar
      if v = [] then none else some v
  | _ => none

/-- `re.match` of `name\{([^}]*)\} ([0-9.e+-]+)` (with `opt := false`) or of
`name(?:\{([^}]*)\})? ([0-9.e+-]+)` (with `opt := true`, the memory pattern)
against one line.  Returns the label-block group (empty when the optional
group is absent, which the source treats identically) and the value group. -/
def matchLine (name : Str) (opt : Bool) (line : Str) : Option (Str × Str) :=
  match chopLit name line with
  | none => none
  | some r =>
      let withBrace : Option (Str × Str) :=
        match r with
        | c :: r2 =>
            if c = lbrace then
              match splitAtChar rbrace r2 with
              | some (lab, rest) => (matchValue rest).map (fun v => (lab, v))
              | none => none
            else none
        | [] => none
      match withBrace with
      | some x => some x
      | none => if opt then (matchValue r).map (fun v => ([], v)) else none

/-- One anchored attempt of the label regex `(\w+)="(.*?)"`: a nonempty
greedy word-character run, `="`, then a lazy run up to the closing quote. -/
def tryLabelAt (s : Str) : Option (Str × Str × Str) :=
  match s with
  | [] => none
  | c :: rest =>
      if isWordChar c then
        match rest.dropWhile isWordChar with
        | e :: q :: r3 =>
            if e = '=' ∧ q = qt then
              match splitAtChar qt r3 with
              | some (v, r4) => some (c :: rest.takeWhile isWordChar, v, r4)
              | none => none
            else none
        | _ => none
      else none

/-- A successful `splitAtChar` decomposes its input around the character. -/
theorem splitAtChar_eq {c : Char} :
    ∀ {s l r : Str}, splitAtChar c s = some (l, r) → s = l ++ c :: r := by
  intro s
  induction s with
  | nil => intro l r h; simp [splitAtChar] at h
  | cons a s ih =>
      intro l r h
      simp only [splitAtChar] at h
      by_cases ha : a = c
      · simp only [ha, if_true, Option.some.injEq, Prod.mk.injEq] at h
        simp [← h.1, ← h.2, ha]
      · simp only [ha, if_false, Option.map_eq_some'] at h
        obtain ⟨⟨l', r'⟩, hsp, hpr⟩ := h
        simp only [Prod.mk.injEq] at hpr
        have := ih hsp
        simp [← hpr.1, ← hpr.2, this]

/-- The remainder after `splitAtChar` is strictly shorter than the input. -/
theorem splitAtChar_rest_lt {c : Char} {s l r : Str}
    (h : splitAtChar c s = some (l, r)) : r.length < s.length := by
  have := splitAtChar_eq h
  subst this
  simp
  omega

/-- If an anchored label attempt succeeds, it strictly consumes input. -/
theorem tryLabelAt_rest_lt {s k v r : Str} (h : tryLabelAt s = some (k, v, r)) :
    r.length < s.length := by
  unfold tryLabelAt at h
  split at h
  · exact Option.noConfusion h
  next c rest =>
    split at h
    · split at h
      next e q r3 hdw =>
        split at h
        · split at h
          next v' r4 hsp =>
            simp only [Option.some.injEq, Prod.mk.injEq] at h
            obtain ⟨-, -, hr⟩ := h
            subst hr
            have h3 := splitAtChar_rest_lt hsp
            have hlen : (rest.dropWhile isWordChar).length ≤ rest.length :=
              (List.dropWhile_sublist _).length_le
            rw [hdw] at hlen
            simp only [List.length_cons] at hlen h3 ⊢
            omega
          next hsp => exact Option.noConfusion h
        · exact Option.noConfusion h
      next hdw => exact Option.noConfusion h
    · exact Option.noConfusion h

/-- Fuel-driven worker for `findLabels` (structural recursion so that the
kernel can evaluate it; the fuel is always sufficient at the call site). -/
def findLabelsGo : ℕ → Str → List (Str × Str)
  | 0, _ => []
  | _, [] => []
  | fuel + 1, c :: rest =>
      match tryLabelAt (c :: rest) with
      | some (k, v, r4) => (k, v) :: findLabelsGo fuel r4
      | none => findLabelsGo fuel rest

/-- `re.findall` of `(\w+)="(.*?)"`: try an anchored match at each position,
left to right, consuming matched text. -/
def findLabels (s : Str) : List (Str × Str) := findLabelsGo s.length s

/-- The fuel of `findLabelsGo` is irrelevant as long as it is sufficient. -/
theorem findLabelsGo_fuel :
    ∀ (n : ℕ) (s : Str), s.length ≤ n → ∀ f, s.length ≤ f →
      findLabelsGo n s = findLabelsGo f s := by
  intro n
  induction n using Nat.strong_induction_on with
  | _ n ih =>
      intro s hn f hf
      match s with
      | [] =>
          match n, f with
          | 0, 0 => rfl
          | 0, _ + 1 => rfl
          | _ + 1, 0 => rfl
          | _ + 1, _ + 1 => rfl
      | c :: rest =>
          simp only [List.length_cons] at hn hf
          match n, f with
          | n' + 1, f' + 1 =>
              simp only [findLabelsGo]
              match htr : tryLabelAt (c :: rest) with
              | some (k, v, r4) =>
                  have hlt := tryLabelAt_rest_lt htr
                  simp only [List.length_cons] at hlt
                  have h1 : r4.length ≤ n' := by omega
                  have h2 : r4.length ≤ f' := by omega
                  simp only [htr]
                  rw [ih n' (by omega) r4 h1 f' h2]
              | none =>
                  simp only [htr]
                  rw [ih n' (by omega) rest (by omega) f' (by omega)]

/-- Unfolding `findLabels` when the anchored attempt succeeds. -/
theorem findLabels_cons_match {c : Char} {rest k v r4 : Str}
    (h : tryLabelAt (c :: rest) = some (k, v, r4)) :
    findLabels (c :: rest) = (k, v) :: findLabels r4 := by
  have hlt := tryLabelAt_rest_lt h
  simp only [List.length_cons] at hlt
  simp only [findLabels, List.length_cons, findLabelsGo, h]
  rw [findLabelsGo_fuel rest.length r4 (by omega) r4.length (by omega)]

/-- Unfolding `findLabels` when the anchored attempt fails. -/
theorem findLabels_cons_skip {c : Char} {rest : Str}
    (h : tryLabelAt (c :: rest) = none) :
    findLabels (c :: rest) = findLabels rest := by
  simp only [findLabels, List.length_cons, findLabelsGo, h]

/-- Optional leading sign of a Python float literal: `(negative?, rest)`. -/
def readSign : Str → Bool × Str
  | '-' :: s => (true, s)
  | '+' :: s => (false, s)
  | s => (false, s)

/-- Numeric value of a digit string (most significant first). -/
def digitsToNat (l : Str) : ℕ :=
  l.foldl (fun n c => 10 * n + (c.toNat - 48)) 0

/-- Python `float(text)` for text over the characters `[0-9.e+-]` (the only
ones that reach it through the value group): optional sign, a mantissa with
at least one digit and at most one dot, and an optional `e`-exponent.  Any
other shape raises `ValueError`, modelled as `none`.  The numeric result is
modelled as an exact rational. -/
def pyFloat (s : Str) : Option ℚ :=
  let sg := readSign s
  let ip := sg.2.takeWhile Char.isDigit
  let s2 := sg.2.dropWhile Char.isDigit
  let fr : Str × Str :=
    match s2 with
    | '.' :: t => (t.takeWhile Char.isDigit, t.dropWhile Char.isDigit)
    | _ => ([], s2)
  if ip = [] ∧ fr.1 = [] then none
  else
    let mant : ℚ := (digitsToNat ip : ℚ) + (digitsToNat fr.1 : ℚ) / ((10 : ℚ) ^ fr.1.length)
    let signed : ℚ := if sg.1 then -mant else mant
    match fr.2 with
    | [] => some signed
    | 'e' :: t =>
        let esg := readSign t
        let ed := esg.2.takeWhile Char.isDigit
        if ed = [] ∨ esg.2.dropWhile Char.isDigit ≠ [] then none
        else some (signed * (10 : ℚ) ^ (if esg.1 then -(digitsToNat ed : ℤ) else (digitsToNat ed : ℤ)))
    | _ => none

/-- Record built from one matched line: `labels = dict(findall(...))`, then
`labels[value_name] = float(value)` (which overwrites a label of the same
name in place, as the Python dict assignment does). -/
def mkRecord (labStr : Str) (vname : Str) (q : ℚ) : Record :=
  setCol (dedupPairs ((findLabels labStr).map (fun kv => (kv.1, Cell.str kv.2)))) vname (Cell.num q)

/-- The line loop of `parse_metric`: matching lines become records; a matched
line whose value text `float()` rejects raises `ValueError`, aborting the
whole parse with nothing returned. -/
def parseLines (name : Str) (opt : Bool) (vname : Str) : List Str → Except String (List Record)
  | [] => .ok []
  | l :: ls =>
      match matchLine name opt l with
      | none => parseLines name opt vname ls
      | some (labStr, valStr) =>
          match pyFloat valStr with
          | none => .error "ValueError: could not convert string to float"
          | some q => (parseLines name opt vname ls).map (fun rs => mkRecord labStr vname q :: rs)

/-- `parse_metric(pattern, text, value_name)` where the pattern is
`name\{([^}]*)\} ([0-9.e+-]+)` (or the variant with an optional label block
when `opt` is true, used for the memory gauge). -/
def parse_metric (name : Str) (opt : Bool) (text : Str) (vname : Str) : Except String Df :=
  (parseLines name opt vname (pySplitlines text)).map dfOfRecords

end SysMon

namespace SysMon

/-! ## Rate calculator (`calculate_rate`) and pandas merge -/

/-- The hardcoded denominator of `calculate_rate`: every rate is the value
delta divided by 60, whatever the real gap between the snapshots was. -/
def RATE_DIVISOR : ℚ := 60

/-- The wait between the two snapshot fetches in `main` (`time.sleep(10)`). -/
def SLEEP_SECONDS : ℚ := 10

/-- The tuple of join-key cells of a row (a NaN key cell is `none`; pandas
merge treats NaN keys as joinable values, so `none` matches `none`). -/
def keyTuple (keys : List Str) (r : Record) : List (Option Cell) :=
  keys.map (alookup r)

/-- Suffix applied by `pd.merge` to a non-key column: only columns present
on both sides are renamed. -/
def suffName (overlap : List Str) (sfx : Str) (k : Str) : Str :=
  if k ∈ overlap then k ++ sfx else k

/-- The merged row for one joined pair: join-key cells first, then the
non-key cells of the left row and of the right row, suffixed on overlap. -/
def mergeRec (keys overlap : List Str) (sx sy : Str) (r1 r2 : Record) : Record :=
  keys.filterMap (fun k => (alookup r1 k).map (fun c => (k, c)))
    ++ (r1.filter (fun kv => kv.1 ∉ keys)).map (fun kv => (suffName overlap sx kv.1, kv.2))
    ++ (r2.filter (fun kv => kv.1 ∉ keys)).map (fun kv => (suffName overlap sy kv.1, kv.2))

/-- Non-key columns of a frame. -/
def nonKeyCols (d : Df) (keys : List Str) : List Str :=
  d.cols.filter (fun c => c ∉ keys)

/-- The columns suffixed by a merge: non-key columns present on both sides. -/
def mergeOverlap (d1 d2 : Df) (keys : List Str) : List Str :=
  (nonKeyCols d1 keys).filter (fun c => c ∈ nonKeyCols d2 keys)

/-- All merged rows produced for one left row: one for each right row with
the same join-key tuple. -/
def joinRows (d2rows : List Record) (keys ov : List Str) (sx sy : Str)
    (r1 : Record) : List Record :=
  (d2rows.filter (fun r2 => keyTuple keys r1 = keyTuple keys r2)).map
    (mergeRec keys ov sx sy r1)

/-- `pd.merge(d1, d2, on=keys, suffixes=(sx, sy))`: inner join on the key
tuple; raises `KeyError` when a key column is missing from either frame. -/
def pdMerge (d1 d2 : Df) (keys : List Str) (sx sy : Str) : Except String Df :=
  if keys.all (fun k => k ∈ d1.cols ∧ k ∈ d2.cols) then
    .ok ⟨keys ++ (nonKeyCols d1 keys).map (suffName (mergeOverlap d1 d2 keys) sx)
           ++ (nonKeyCols d2 keys).map (suffName (mergeOverlap d1 d2 keys) sy),
         d1.rows.flatMap (joinRows d2.rows keys (mergeOverlap d1 d2 keys) sx sy)⟩
  else .error "KeyError: merge key not found"

/-- The row filter of line 56: rows whose rate cell is a number `≥ 0` are
kept; a NaN rate (absent cell) compares false and is dropped. -/
def rateKeep (rateName : Str) (r : Record) : Bool :=
  match alookup r rateName with
  | some (Cell.num q) => decide (0 ≤ q)
  | _ => false

/-- The rate cell of one merged row: the delta of the suffixed value cells
divided by the hardcoded 60, NaN when either cell is missing or non-numeric. -/
def rateValue (value_col : Str) (r : Record) : Option Cell :=
  match alookup r (value_col ++ L "_old"), alookup r (value_col ++ L "_new") with
  | some (Cell.num a), some (Cell.num b) => some (Cell.num ((b - a) / RATE_DIVISOR))
  | _, _ => none

/-- `calculate_rate(df1, df2, label_cols, value_col)`: merge with suffixes
`("_old", "_new")`, add `value_col + "_rate"` as the delta divided by the
hardcoded 60, and keep only non-negative rates.  Accessing the suffixed
value columns raises `KeyError` when they are absent from the merge. -/
def calculate_rate (d1 d2 : Df) (label_cols : List Str) (value_col : Str) :
    Except String Df :=
  match pdMerge d1 d2 label_cols (L "_old") (L "_new") with
  | .error e => .error e
  | .ok m =>
      if (value_col ++ L "_old") ∈ m.cols ∧ (value_col ++ L "_new") ∈ m.cols then
        let withRate := setColAll m (value_col ++ L "_rate") (rateValue value_col)
        .ok ⟨withRate.cols, withRate.rows.filter (rateKeep (value_col ++ L "_rate"))⟩
      else .error "KeyError: value column not found"

end SysMon

namespace SysMon

/-! ## Sink (`insert`) and the per-domain collectors of `write_into_db.py` -/

/-- Fallback IP used when no IPv4 address can be extracted. -/
def IP_DEFAULT : Str := L "127.0.0.1"

/-- A nonempty digit run followed by a consumed dot. -/
def digitsDot (s : Str) : Option (Str × Str) :=
  let d := s.takeWhile Char.isDigit
  if d = [] then none
  else
    match s.dropWhile Char.isDigit with
    | '.' :: r => some (d, r)
    | _ => none

/-- Anchored attempt of `(\d+\.\d+\.\d+\.\d+)` at the start of the string. -/
def tryIPv4At (s : Str) : Option Str :=
  (digitsDot s).bind fun p1 =>
    (digitsDot p1.2).bind fun p2 =>
      (digitsDot p2.2).bind fun p3 =>
        let d4 := p3.2.takeWhile Char.isDigit
        if d4 = [] then none
        else some (p1.1 ++ '.' :: p2.1 ++ '.' :: p3.1 ++ '.' :: d4)

/-- `Series.str.extract(r'(\d+\.\d+\.\d+\.\d+)')` on one value: the first
(leftmost) match of the pattern, if any. -/
def extractIPv4 : Str → Option Str
  | [] => none
  | c :: rest =>
      match tryIPv4At (c :: rest) with
      | some ip => some ip
      | none => extractIPv4 rest

/-- Common column names. -/
def tsCol : Str := L "timestamp"

def ipCol : Str := L "ip"

def instCol : Str := L "instance"

def devCol : Str := L "device"

def volCol : Str := L "volume"

def mountCol : Str := L "mountpoint"

def valueCol : Str := L "value"

def bytesCol : Str := L "bytes"

/-- The row transformation of `insert`: the scalar `timestamp` assignment
always overwrites; the `ip` assignment depends on the branch.  With
`instance` present, `str.extract` yields a one-column frame whose column is
named `0`, so `df.loc[:, "ip"] = ...` on a pre-existing `ip` column aligns
by label and fills the whole column with NaN (modelled as key removal),
while on a fresh `ip` column it takes the extracted values positionally.
Without `instance`, the scalar default overwrites or creates `ip`. -/
def insertRows (df : Df) (now : Cell) : List Record :=
  df.rows.map (fun r =>
    let r1 := setCol r tsCol now
    if instCol ∈ df.cols then
      if ipCol ∈ df.cols then delCol r1 ipCol
      else
        setCol r1 ipCol (Cell.str
          (match alookup r instCol with
           | some (Cell.str s) => (extractIPv4 s).getD IP_DEFAULT
           | _ => IP_DEFAULT))
    else setCol r1 ipCol (Cell.str IP_DEFAULT))

/-- One row set appended to one destination table. -/
abbrev Emission := Str × List Record

/-- `insert(df, table)`: a non-empty frame appends its augmented rows to the
table; an empty frame appends nothing (a warning is printed instead). -/
def insert (df : Df) (table : Str) (now : Cell) : List Emission :=
  if df.isEmptyDf then [] else [(table, insertRows df now)]

/-- Result of one collector: the emissions it performed before returning or
raising, and the exception it raised, if any. -/
abbrev CResult := List Emission × Option String

/-- Sequencing of two stages with Python exception semantics: emissions made
before an exception persist; an exception skips everything after it. -/
def andThenC (a : CResult) (b : Unit → CResult) : CResult :=
  match a with
  | (es, some e) => (es, some e)
  | (es, none) => ((es ++ (b ()).1 : List Emission), (b ()).2)

/-- `df["instance"] = "localhost:9100"` when the column is missing (also adds
the column to an empty frame, as pandas does). -/
def addInstanceIfMissing (d : Df) : Df :=
  if instCol ∈ d.cols then d else setColConst d instCol (Cell.str (L "localhost:9100"))

/-- Association lookup in a fixed remap table. -/
def lookupStr : List (Str × Str) → Str → Option Str
  | [], _ => none
  | (k0, v) :: t, k => if k0 = k then some v else lookupStr t k

/-- The mountpoint-to-volume table of `store_disk_free`. -/
def MOUNT_REMAP : List (Str × Str) :=
  [(L "/", L "C"), (L "/run", L "D"), (L "/run/user/1000", L "E"),
   (L "/run/lock", L "F"), (L "/run/snapd/ns", L "G")]

/-- The device-to-volume table of `store_disk_iops_throughput`. -/
def DISK_REMAP : List (Str × Str) :=
  [(L "sda", L "C"), (L "sdb", L "D"), (L "sdc", L "E")]

/-- `.map(table).fillna(original)` applied to one identifier: remapped when
in the table, passed through unchanged otherwise. -/
def remapMount (v : Str) : Str := (lookupStr MOUNT_REMAP v).getD v

/-- Device-name remap with pass-through, as `remapMount`. -/
def remapDisk (v : Str) : Str := (lookupStr DISK_REMAP v).getD v

/-- `df["volume"] = df["volume"].map(table).fillna(df["volume"])`: raises
`KeyError` when the column is absent (the empty-frame bug of
`store_disk_free`); otherwise remaps every string cell, leaves NaN and
non-string cells unchanged (a dict lookup misses them, `fillna` restores). -/
def remapVolumeCol (d : Df) (f : Str → Str) : Except String Df :=
  if volCol ∈ d.cols then
    .ok ⟨d.cols, d.rows.map (fun r =>
      match alookup r volCol with
      | some (Cell.str s) => setCol r volCol (Cell.str (f s))
      | _ => r)⟩
  else .error "KeyError: volume"

/-- Metric family names consumed by the collectors. -/
def cpuName : Str := L "node_cpu_seconds_total"

def memName : Str := L "node_memory_MemAvailable_bytes"

def fsName : Str := L "node_filesystem_free_bytes"

def rxName : Str := L "node_network_receive_bytes_total"

def txName : Str := L "node_network_transmit_bytes_total"

def rdName : Str := L "node_disk_reads_completed_total"

def wrName : Str := L "node_disk_writes_completed_total"

def rbName : Str := L "node_disk_read_bytes_total"

def wbName : Str := L "node_disk_written_bytes_total"

/-- `store_cpu`: parse both snapshots, default the instance label, join on
(instance, cpu, mode), rename to (core, state, rate_per_sec) and insert. -/
def store_cpu (now : Cell) (t1 t2 : Str) : CResult :=
  match parse_metric cpuName false t1 valueCol with
  | .error e => ([], some e)
  | .ok df1 =>
      match parse_metric cpuName false t2 valueCol with
      | .error e => ([], some e)
      | .ok df2 =>
          if ¬ df1.isEmptyDf ∧ ¬ df2.isEmptyDf then
            match calculate_rate (addInstanceIfMissing df1) (addInstanceIfMissing df2)
                [instCol, L "cpu", L "mode"] valueCol with
            | .error e => ([], some e)
            | .ok dr =>
                let dr2 := renameDf dr
                  [(L "cpu", L "core"), (L "mode", L "state"), (L "value_rate", L "rate_per_sec")]
                match selectCols dr2 [L "core", L "state", L "rate_per_sec"] with
                | .error e => ([], some e)
                | .ok ds => (insert ds (L "cpu_cstate_rates") now, none)
          else ([], none)

/-- `store_memory`: gauge from the newer snapshot only; an empty parse emits
nothing and raises nothing. -/
def store_memory (now : Cell) (text : Str) : CResult :=
  match parse_metric memName true text bytesCol with
  | .error e => ([], some e)
  | .ok df =>
      if ¬ df.isEmptyDf then
        let df2 := setColConst df (L "metric") (Cell.str (L "MemAvailable"))
        match selectCols df2 [L "metric", bytesCol] with
        | .error e => ([], some e)
        | .ok ds => (insert ds (L "ram_stats") now, none)
      else ([], none)

/-- `store_disk_free`: gauge from the newer snapshot; renames `mountpoint`
to `volume` when present, then unconditionally accesses `df["volume"]`. -/
def store_disk_free (now : Cell) (text : Str) : CResult :=
  match parse_metric fsName false text bytesCol with
  | .error e => ([], some e)
  | .ok df =>
      let df1 := if mountCol ∈ df.cols then renameDf df [(mountCol, volCol)] else df
      match remapVolumeCol df1 remapMount with
      | .error e => ([], some e)
      | .ok df2 =>
          match selectCols df2 [volCol, bytesCol] with
          | .error e => ([], some e)
          | .ok ds => (insert ds (L "disk_free_space") now, none)

/-- One direction (receive or transmit) of `store_bandwidth`. -/
def bandwidthPass (now : Cell) (dfo dfn : Df) (mode : Str) : CResult :=
  match calculate_rate (addInstanceIfMissing dfo) (addInstanceIfMissing dfn)
      [instCol, devCol] valueCol with
  | .error e => ([], some e)
  | .ok dr =>
      let a := setColConst dr (L "metric_name")
        (Cell.str (L "node_network_" ++ mode ++ L "_bytes_total"))
      let b := setColConst a (L "mode") (Cell.str mode)
      let c := setColAll b valueCol (fun r => alookup r (L "value_rate"))
      let d := setColAll c (L "value_mbps") (fun r =>
        match alookup r valueCol with
        | some (Cell.num q) => some (Cell.num (q * 8 / 1024 / 1024))
        | _ => none)
      match selectCols d [L "metric_name", L "mode", valueCol, L "value_mbps"] with
      | .error e => ([], some e)
      | .ok ds => (insert ds (L "bandwidth") now, none)

/-- `store_bandwidth`: no empty-frame guard; the receive pass runs first and
an exception in it skips the transmit pass. -/
def store_bandwidth (now : Cell) (t1 t2 : Str) : CResult :=
  match parse_metric rxName false t1 valueCol with
  | .error e => ([], some e)
  | .ok rx1 =>
      match parse_metric rxName false t2 valueCol with
      | .error e => ([], some e)
      | .ok rx2 =>
          match parse_metric txName false t1 valueCol with
          | .error e => ([], some e)
          | .ok tx1 =>
              match parse_metric txName false t2 valueCol with
              | .error e => ([], some e)
              | .ok tx2 =>
                  andThenC (bandwidthPass now rx1 rx2 (L "receive"))
                    (fun _ => bandwidthPass now tx1 tx2 (L "transmit"))

/-- One block of `store_disk_iops_throughput` (IOPS or throughput): two rate
joins on `device`, a plain merge of the two results, rename, device remap,
insert. -/
def diskBlock (now : Cell) (d1 d2 d3 d4 : Df) (vc1 vc2 out1 out2 table : Str) : CResult :=
  if ¬ d1.isEmptyDf ∧ ¬ d2.isEmptyDf ∧ ¬ d3.isEmptyDf ∧ ¬ d4.isEmptyDf then
    match calculate_rate d1 d2 [devCol] vc1 with
    | .error e => ([], some e)
    | .ok r =>
        match calculate_rate d3 d4 [devCol] vc2 with
        | .error e => ([], some e)
        | .ok w =>
            match pdMerge r w [devCol] (L "_x") (L "_y") with
            | .error e => ([], some e)
            | .ok m =>
                let m2 := renameDf m
                  [(vc1 ++ L "_rate", out1), (vc2 ++ L "_rate", out2), (devCol, volCol)]
                match remapVolumeCol m2 remapDisk with
                | .error e => ([], some e)
                | .ok m3 =>
                    match selectCols m3 [volCol, out1, out2] with
                    | .error e => ([], some e)
                    | .ok ds => (insert ds table now, none)
  else ([], none)

/-- `store_disk_iops_throughput`: parse the eight frames, then run the IOPS
block and the throughput block in order (an exception in the first skips the
second). -/
def store_disk_iops_throughput (now : Cell) (t1 t2 : Str) : CResult :=
  match parse_metric rdName false t1 (L "reads") with
  | .error e => ([], some e)
  | .ok r1 =>
  match parse_metric rdName false t2 (L "reads") with
  | .error e => ([], some e)
  | .ok r2 =>
  match parse_metric wrName false t1 (L "writes") with
  | .error e => ([], some e)
  | .ok w1 =>
  match parse_metric wrName false t2 (L "writes") with
  | .error e => ([], some e)
  | .ok w2 =>
  match parse_metric rbName false t1 (L "rbytes") with
  | .error e => ([], some e)
  | .ok rb1 =>
  match parse_metric rbName false t2 (L "rbytes") with
  | .error e => ([], some e)
  | .ok rb2 =>
  match parse_metric wbName false t1 (L "wbytes") with
  | .error e => ([], some e)
  | .ok wb1 =>
  match parse_metric wbName false t2 (L "wbytes") with
  | .error e => ([], some e)
  | .ok wb2 =>
      andThenC
        (diskBlock now r1 r2 w1 w2 (L "reads") (L "writes")
          (L "read_iops") (L "write_iops") (L "disk_iops"))
        (fun _ => diskBlock now rb1 rb2 wb1 wb2 (L "rbytes") (L "wbytes")
          (L "read_bytes_per_sec") (L "write_bytes_per_sec") (L "disk_throughput"))

/-- The collection cycle of `main` in `write_into_db.py`: fetch, wait 10
seconds, fetch, then run the five collectors strictly in sequence with no
exception handling — an exception in one collector aborts all later ones. -/
def mainCycle (now : Cell) (t1 t2 : Str) : CResult :=
  andThenC (store_bandwidth now t1 t2) (fun _ =>
    andThenC (store_memory now t2) (fun _ =>
      andThenC (store_disk_free now t2) (fun _ =>
        andThenC (store_cpu now t1 t2) (fun _ =>
          store_disk_iops_throughput now t1 t2))))

end SysMon

namespace SysMon

/-! ## CPU utilization in `sheet_to_looker.py` and `monthly.py`

Rows of the `cpu_cstate_rates` table are modelled as typed records whose
timestamps are naturals already floored to the minute.  NaN is `none`;
pandas `x / 0` gives `±inf` for `x ≠ 0` and NaN for `x = 0`, and `clip`
maps `-inf` to the lower bound, `+inf` to the upper bound and keeps NaN. -/

/-- One row of the `cpu_cstate_rates` table as read back from the store. -/
structure CpuRow where
  t : ℕ
  state : Str
  rate : ℚ
deriving DecidableEq, Repr

/-- `state.isin(['idle', 'iowait'])`. -/
def isIdleState (s : Str) : Bool := s = L "idle" || s = L "iowait"

/-- First-appearance deduplication of naturals. -/
def dedupNats (l : List ℕ) : List ℕ :=
  l.foldl (fun acc t => if t ∈ acc then acc else acc ++ [t]) []

/-- Insertion into a sorted list of naturals. -/
def insertSorted (x : ℕ) : List ℕ → List ℕ
  | [] => [x]
  | y :: ys => if x ≤ y then x :: y :: ys else y :: insertSorted x ys

/-- Ascending insertion sort (pandas groupby sorts its keys). -/
def sortNats (l : List ℕ) : List ℕ := l.foldl (fun acc x => insertSorted x acc) []

/-- The distinct timestamps of the frame, in ascending order. -/
def timestampsOf (rows : List CpuRow) : List ℕ :=
  sortNats (dedupNats (rows.map (·.t)))

/-- `df.groupby('timestamp')['rate_per_sec'].sum()` at one timestamp. -/
def totalAt (rows : List CpuRow) (t : ℕ) : ℚ :=
  ((rows.filter (fun r => r.t = t)).map (·.rate)).sum

/-- The idle/iowait rows at one timestamp. -/
def idleRowsAt (rows : List CpuRow) (t : ℕ) : List CpuRow :=
  rows.filter (fun r => r.t = t ∧ isIdleState r.state)

/-- Sum of idle/iowait rates at one timestamp. -/
def idleAt (rows : List CpuRow) (t : ℕ) : ℚ :=
  ((idleRowsAt rows t).map (·.rate)).sum

/-- `.clip(lower=0, upper=100)`. -/
def clip0100 (q : ℚ) : ℚ := max 0 (min q 100)

/-- Round-half-to-even to an integer (numpy rounding). -/
def roundHalfEven (q : ℚ) : ℤ :=
  let f := ⌊q⌋
  if q - f < 1 / 2 then f
  else if 1 / 2 < q - f then f + 1
  else if f % 2 = 0 then f else f + 1

/-- `.round(1)`. -/
def round1 (q : ℚ) : ℚ := (roundHalfEven (10 * q) : ℚ) / 10

/-- `(100 * (1 - idle / total)).clip(0, 100)` with pandas float semantics:
`total = 0` gives NaN when `idle = 0`, and an infinity that `clip` pins to
a bound otherwise. -/
def utilFromSums (total idle : ℚ) : Option ℚ :=
  if total = 0 then
    if idle = 0 then none
    else if 0 < idle then some 0 else some 100
  else some (clip0100 (100 * (1 - idle / total)))

/-- `calculate_cpu_utilization_correct` of `sheet_to_looker.py`: per
timestamp, the clipped rounded utilization; a timestamp absent from the idle
series, or an undefined `0/0`, becomes 0 through `.fillna(0)`. -/
def calculate_cpu_utilization_correct (rows : List CpuRow) : List (ℕ × ℚ) :=
  (timestampsOf rows).map (fun t =>
    (t, if (idleRowsAt rows t).isEmpty then 0
        else
          match utilFromSums (totalAt rows t) (idleAt rows t) with
          | none => 0
          | some v => round1 v))

/-- Mean with pandas NaN-skipping: NaN entries are ignored; the mean of an
all-NaN group is itself NaN. -/
def meanOpt (l : List (Option ℚ)) : Option ℚ :=
  let v := l.filterMap id
  if v.isEmpty then none else some (v.sum / v.length)

/-- `process_cpu_utilization` of `monthly.py`: the idle series is filled
with 0 for missing timestamps *before* the division (`concat(...).fillna(0)`),
but the division result is never filled — `total = 0` with `idle = 0` stays
NaN and is then skipped by the monthly mean.  `mo` is the calendar month of
a timestamp. -/
def process_cpu_utilization (mo : ℕ → ℕ) (rows : List CpuRow) : List (ℕ × Option ℚ) :=
  let ts := timestampsOf rows
  let perT : List (ℕ × Option ℚ) :=
    ts.map (fun t => (t, utilFromSums (totalAt rows t) (idleAt rows t)))
  let months := sortNats (dedupNats (ts.map mo))
  months.map (fun m =>
    (m, meanOpt ((perT.filter (fun p => mo p.1 = m)).map Prod.snd)))

end SysMon

namespace SysMon

/-! ## Synthetic exposition serializer

Modelled from the spec: the exposition line grammar of §6,
`<metric_name>{<label>="<value>"(,<label>="<value>")*} <float>`, used as the
synthetic generator of the §8 parser round-trip property.  This definition
follows the spec's words, not the source (the source contains no
serializer), and is compared against `parse_metric`. -/

/-- One serialized `key="value"` pair. -/
def serializeLabel1 (p : Str × Str) : Str :=
  p.1 ++ ('=' :: (qt :: (p.2 ++ [qt])))

/-- `k1="v1",k2="v2",...` (empty for no labels). -/
def serializeLabels : List (Str × Str) → Str
  | [] => []
  | [p] => serializeLabel1 p
  | p :: q :: rest => serializeLabel1 p ++ (',' :: serializeLabels (q :: rest))

/-- One exposition sample line. -/
def serializeSampleLine (name : Str) (pairs : List (Str × Str)) (lit : Str) : Str :=
  name ++ (lbrace :: (serializeLabels pairs ++ (rbrace :: (' ' :: lit))))

/-- Newline join without a trailing newline. -/
def joinLines : List Str → Str
  | [] => []
  | [l] => l
  | l :: l2 :: ls => l ++ nl :: joinLines (l2 :: ls)

/-- The exposition text of a synthetic set of (labels, value-literal) pairs. -/
def serializeExposition (name : Str) (samples : List (List (Str × Str) × Str)) : Str :=
  joinLines (samples.map (fun s => serializeSampleLine name s.1 s.2))

end SysMon

namespace SysMon

/-! ## Association-list lemmas -/

theorem alookup_setCol_self (r : Record) (k : Str) (v : Cell) :
    alookup (setCol r k v) k = some v := by
  induction r with
  | nil => simp [setCol, alookup]
  | cons hd tl ih =>
      obtain ⟨k0, v0⟩ := hd
      simp only [setCol]
      by_cases h : k0 = k
      · simp [h, alookup]
      · simp [h, alookup, ih]

theorem alookup_setCol_ne (r : Record) {k' k : Str} (v : Cell) (h : k' ≠ k) :
    alookup (setCol r k' v) k = alookup r k := by
  induction r with
  | nil => simp [setCol, alookup, h]
  | cons hd tl ih =>
      obtain ⟨k0, v0⟩ := hd
      simp only [setCol]
      by_cases h0 : k0 = k'
      · subst h0
        simp [alookup, h]
      · simp only [h0, if_false, alookup, ih]

theorem alookup_delCol_ne (r : Record) {k' k : Str} (h : k' ≠ k) :
    alookup (delCol r k') k = alookup r k := by
  induction r with
  | nil => rfl
  | cons hd tl ih =>
      obtain ⟨k0, v0⟩ := hd
      simp only [delCol, List.filter_cons] at ih ⊢
      by_cases h0 : k0 = k'
      · subst h0
        have hk : k0 ≠ k := h
        simp only [ne_eq, not_true_eq_false, decide_False, Bool.false_eq_true, if_false,
          alookup, hk, ih]
      · simp only [ne_eq, h0, not_false_eq_true, decide_True, if_true, alookup]
        by_cases hk : k0 = k
        · simp [hk]
        · simp only [hk, if_false, ih]

theorem alookup_delCol_self (r : Record) (k : Str) :
    alookup (delCol r k) k = none := by
  induction r with
  | nil => rfl
  | cons hd tl ih =>
      obtain ⟨k0, v0⟩ := hd
      simp only [delCol, List.filter_cons] at ih ⊢
      by_cases h0 : k0 = k
      · simp only [h0, ne_eq, not_true_eq_false, decide_False, Bool.false_eq_true,
          if_false]
        exact ih
      · simp only [ne_eq, h0, not_false_eq_true, decide_True, if_true, alookup,
          if_neg h0]
        exact ih

theorem alookup_append_some {A : Record} (B : Record) {k : Str} {v : Cell}
    (h : alookup A k = some v) : alookup (A ++ B) k = some v := by
  induction A with
  | nil => simp [alookup] at h
  | cons hd tl ih =>
      obtain ⟨k0, v0⟩ := hd
      simp only [alookup, List.cons_append] at h ⊢
      by_cases h0 : k0 = k
      · simpa [h0] using h
      · simp only [h0, if_false] at h ⊢
        exact ih h

theorem alookup_append_none {A : Record} (B : Record) {k : Str}
    (h : alookup A k = none) : alookup (A ++ B) k = alookup B k := by
  induction A with
  | nil => simp
  | cons hd tl ih =>
      obtain ⟨k0, v0⟩ := hd
      simp only [alookup, List.cons_append] at h ⊢
      by_cases h0 : k0 = k
      · simp [h0] at h
      · simp only [h0, if_false] at h ⊢
        exact ih h

theorem alookup_none_of_not_mem {A : Record} {k : Str}
    (h : k ∉ A.map Prod.fst) : alookup A k = none := by
  induction A with
  | nil => rfl
  | cons hd tl ih =>
      obtain ⟨k0, v0⟩ := hd
      simp only [List.map_cons, List.mem_cons] at h
      push_neg at h
      simp only [alookup, show k0 ≠ k from fun e => h.1 e.symm, if_false]
      exact ih h.2

end SysMon

namespace SysMon

/-! ## Concrete inputs used by the closed claim theorems -/

/-- A first-snapshot text: one CPU counter line with value 0. -/
def cpuT1 : Str :=
  serializeSampleLine cpuName [(L "cpu", L "0"), (L "mode", L "user")] (L "0")

/-- The matching second-snapshot text with value 60. -/
def cpuT2 : Str :=
  serializeSampleLine cpuName [(L "cpu", L "0"), (L "mode", L "user")] (L "60")

/-- A scrape text containing only a memory gauge sample. -/
def memOnlyText : Str := memName ++ ' ' :: L "5"

/-- A first-snapshot text with network counters on `eth0` only. -/
def c2t1W : Str :=
  joinLines [serializeSampleLine rxName [(L "device", L "eth0")] (L "0"),
    serializeSampleLine txName [(L "device", L "eth0")] (L "0")]

/-- The second-snapshot text: network counters on `eth1` only (so the
bandwidth join is empty but raises nothing) plus a memory line whose value
literal `1.2.3` makes `float()` raise inside `store_memory`. -/
def c2t2W : Str :=
  joinLines [serializeSampleLine rxName [(L "device", L "eth1")] (L "5"),
    serializeSampleLine txName [(L "device", L "eth1")] (L "5"),
    memName ++ ' ' :: L "1.2.3"]

end SysMon

namespace SysMon

set_option maxRecDepth 40000

/-- C1: the claim says every emitted rate is the counter delta divided by
the measured wall-clock elapsed interval (10 s for the program's own cycle).
The code divides by the hardcoded constant 60 (`calculate_rate`, line 55)
while `main` waits `SLEEP_SECONDS = 10` between the fetches, so for a delta
of 60 over one cycle it stores `rate_per_sec = 1` where the claim requires
`60 / 10 = 6`: the rate is divided by a different constant, contradicting
both the claim and the column's own `rate_per_sec` name. -/
theorem c1_rate_divided_by_60_not_elapsed :
    store_cpu (Cell.num 0) cpuT1 cpuT2 =
      ([(L "cpu_cstate_rates",
         [[(L "core", Cell.str (L "0")), (L "state", Cell.str (L "user")),
           (L "rate_per_sec", Cell.num 1), (tsCol, Cell.num 0),
           (ipCol, Cell.str IP_DEFAULT)]])], none)
    ∧ (60 - 0 : ℚ) / SLEEP_SECONDS = 6 ∧ (1 : ℚ) ≠ 6 :=
  ⟨of_decide_eq_true (by with_unfolding_all rfl),
   of_decide_eq_true (by with_unfolding_all rfl),
   of_decide_eq_true (by with_unfolding_all rfl)⟩

/-- C2 counterexample: with a scrape text exposing only the memory family,
`store_memory` alone would emit a `ram_stats` record, but the full cycle
aborts inside `store_bandwidth` (a `KeyError` raised by the merge on the
empty network frames) before `store_memory` ever runs, so nothing at all is
stored — a failure in one family does prevent the remaining families. -/
theorem c2_counterexample_cycle_aborts :
    mainCycle (Cell.num 0) memOnlyText memOnlyText
      = ([], some "KeyError: merge key not found")
    ∧ (store_memory (Cell.num 0) memOnlyText).1 ≠ []
    ∧ (store_memory (Cell.num 0) memOnlyText).2 = none :=
  ⟨of_decide_eq_true (by with_unfolding_all rfl),
   of_decide_eq_true (by with_unfolding_all rfl),
   of_decide_eq_true (by with_unfolding_all rfl)⟩

/-- C2 (amended): the collectors run strictly in sequence with no exception
isolation: whichever of the five collectors raises first stops the whole
cycle with exactly the emissions already made, and every later collector
is skipped entirely. -/
theorem c2_first_error_aborts_cycle (now : Cell) (t1 t2 : Str) :
    (∀ es e, store_bandwidth now t1 t2 = (es, some e) →
        mainCycle now t1 t2 = (es, some e))
    ∧ (∀ es0 es e, store_bandwidth now t1 t2 = (es0, none) →
        store_memory now t2 = (es, some e) →
        mainCycle now t1 t2 = (es0 ++ es, some e))
    ∧ (∀ es0 es1 es e, store_bandwidth now t1 t2 = (es0, none) →
        store_memory now t2 = (es1, none) →
        store_disk_free now t2 = (es, some e) →
        mainCycle now t1 t2 = (es0 ++ (es1 ++ es), some e))
    ∧ (∀ es0 es1 es2 es e, store_bandwidth now t1 t2 = (es0, none) →
        store_memory now t2 = (es1, none) →
        store_disk_free now t2 = (es2, none) →
        store_cpu now t1 t2 = (es, some e) →
        mainCycle now t1 t2 = (es0 ++ (es1 ++ (es2 ++ es)), some e))
    ∧ (∀ es0 es1 es2 es3 es e, store_bandwidth now t1 t2 = (es0, none) →
        store_memory now t2 = (es1, none) →
        store_disk_free now t2 = (es2, none) →
        store_cpu now t1 t2 = (es3, none) →
        store_disk_iops_throughput now t1 t2 = (es, some e) →
        mainCycle now t1 t2 = (es0 ++ (es1 ++ (es2 ++ (es3 ++ es))), some e)) := by
  refine ⟨?_, ?_, ?_, ?_, ?_⟩
  · intro es e h
    simp [mainCycle, andThenC, h]
  · intro es0 es e h0 h1
    simp [mainCycle, andThenC, h0, h1]
  · intro es0 es1 es e h0 h1 h2
    simp [mainCycle, andThenC, h0, h1, h2]
  · intro es0 es1 es2 es e h0 h1 h2 h3
    simp [mainCycle, andThenC, h0, h1, h2, h3]
  · intro es0 es1 es2 es3 es e h0 h1 h2 h3 h4
    simp [mainCycle, andThenC, h0, h1, h2, h3, h4]

/-- C2 witness: the amended theorem's second clause applied with concrete
snapshot texts where `store_bandwidth` succeeds emitting nothing and
`store_memory` raises on the float literal `1.2.3`. -/
theorem c2_first_error_aborts_cycle_witness :
    mainCycle (Cell.num 0) c2t1W c2t2W
      = (([] : List Emission) ++ [],
         some "ValueError: could not convert string to float") :=
  (c2_first_error_aborts_cycle (Cell.num 0) c2t1W c2t2W).2.1 [] []
    "ValueError: could not convert string to float"
    (of_decide_eq_true (by with_unfolding_all rfl))
    (of_decide_eq_true (by with_unfolding_all rfl))

/-- C3: the claim says parsing never raises and skips each bad line
individually.  The value group `[0-9.e+-]+` of the line regex also matches
text that Python `float()` rejects, such as `1.2.3`; on such a line
`parse_metric` raises `ValueError` and the whole parse aborts, losing the
valid sibling line, while the same valid line alone parses fine. -/
theorem c3_parse_raises_on_bad_float :
    parse_metric cpuName false
        (joinLines [serializeSampleLine cpuName [(L "cpu", L "0")] (L "5"),
                    serializeSampleLine cpuName [(L "cpu", L "0")] (L "1.2.3")]) valueCol
      = .error "ValueError: could not convert string to float"
    ∧ parse_metric cpuName false
        (serializeSampleLine cpuName [(L "cpu", L "0")] (L "5")) valueCol
      = .ok (dfOfRecords [[(L "cpu", Cell.str (L "0")), (valueCol, Cell.num 5)]]) :=
  ⟨of_decide_eq_true (by with_unfolding_all rfl),
   of_decide_eq_true (by with_unfolding_all rfl)⟩

/-- C7: the claim says a per-timestamp total of 0 yields a 0% utilization in
both reporting paths.  `calculate_cpu_utilization_correct`
(`sheet_to_looker.py`) does yield 0 through its `.fillna(0)`, but
`process_cpu_utilization` (`monthly.py`) lacks that fill: at a timestamp
whose rows are a single idle row of rate 0 the division is NaN, the
timestamp is dropped from the monthly mean, and an all-NaN month reports
NaN (`none`) instead of 0. -/
theorem c7_monthly_total_zero_is_nan :
    calculate_cpu_utilization_correct [⟨5, L "idle", 0⟩] = [(5, 0)]
    ∧ process_cpu_utilization id [⟨5, L "idle", 0⟩] = [(5, none)] :=
  ⟨of_decide_eq_true (by with_unfolding_all rfl),
   of_decide_eq_true (by with_unfolding_all rfl)⟩

/-- C8: the claim says a collector whose metric family is absent emits zero
records with a non-fatal diagnostic.  `store_memory` does behave that way,
but `store_disk_free` accesses `df["volume"]` on the empty frame and raises
`KeyError`, which (with `main` having no handler) also prevents the later
collectors from proceeding. -/
theorem c8_disk_free_raises_on_absent_family :
    store_disk_free (Cell.num 0) [] = ([], some "KeyError: volume")
    ∧ store_memory (Cell.num 0) [] = ([], none) :=
  ⟨of_decide_eq_true (by with_unfolding_all rfl),
   of_decide_eq_true (by with_unfolding_all rfl)⟩

/-- A successful table lookup returns the value of some table entry. -/
theorem lookupStr_mem {t : List (Str × Str)} {v w : Str}
    (h : lookupStr t v = some w) : ∃ k, (k, w) ∈ t := by
  induction t with
  | nil => simp [lookupStr] at h
  | cons hd tl ih =>
      obtain ⟨k0, v0⟩ := hd
      simp only [lookupStr] at h
      by_cases h0 : k0 = v
      · simp only [h0, if_true, Option.some.injEq] at h
        exact ⟨k0, by simp [h]⟩
      · simp only [h0, if_false] at h
        obtain ⟨k, hk⟩ := ih h
        exact ⟨k, List.mem_cons_of_mem _ hk⟩

/-- A lookup-with-pass-through is idempotent whenever no table value is
itself a table key. -/
theorem lookupStr_getD_idem (t : List (Str × Str))
    (hval : ∀ p ∈ t, lookupStr t p.2 = none) (v : Str) :
    (lookupStr t ((lookupStr t v).getD v)).getD ((lookupStr t v).getD v)
      = (lookupStr t v).getD v := by
  cases h : lookupStr t v with
  | none => simp [h]
  | some w =>
      simp only [Option.getD_some]
      obtain ⟨k, hk⟩ := lookupStr_mem h
      have := hval (k, w) hk
      simp only at this
      simp [this]

/-- C9: the identifier remaps of `store_disk_free` (mountpoint table) and
`store_disk_iops_throughput` (device table) map through a fixed lookup with
pass-through for unmapped identifiers; since no produced volume label
(`C`..`G`) is itself a table key, applying either remap twice equals
applying it once, for every input identifier. -/
theorem c9_remap_idempotent (v : Str) :
    remapMount (remapMount v) = remapMount v ∧ remapDisk (remapDisk v) = remapDisk v := by
  constructor
  · unfold remapMount
    exact lookupStr_getD_idem MOUNT_REMAP (by decide) v
  · unfold remapDisk
    exact lookupStr_getD_idem DISK_REMAP (by decide) v

/-- C10 counterexample: a record set that already carries a `timestamp`
column is not persisted unchanged — `insert` overwrites that column with the
insert-time value (and a pre-existing `ip` column next to `instance` is
wiped to NaN by the label-aligned extract assignment), so "all pre-existing
columns are persisted unchanged" fails as stated. -/
theorem c10_counterexample_timestamp_overwritten :
    insertRows ⟨[tsCol], [[(tsCol, Cell.str (L "X"))]]⟩ (Cell.num 7)
      = [[(tsCol, Cell.num 7), (ipCol, Cell.str IP_DEFAULT)]]
    ∧ Cell.num 7 ≠ Cell.str (L "X") :=
  ⟨of_decide_eq_true (by with_unfolding_all rfl),
   of_decide_eq_true (by with_unfolding_all rfl)⟩

/-- C10 (amended): an empty record set persists nothing; every persisted row
carries the insert-time `timestamp` (overwriting any pre-existing value);
without an `instance` column `ip` is the default `127.0.0.1`; with both
`instance` and a pre-existing `ip` column the label-aligned assignment sets
`ip` to NaN; with `instance` and no prior `ip`, `ip` is the extracted IPv4
or the default; every other pre-existing column is persisted unchanged. -/
theorem c10_insert_augments (df : Df) (table : Str) (now : Cell) :
    (df.rows = [] → insert df table now = [])
    ∧ List.Forall₂ (fun r out =>
        alookup out tsCol = some now
        ∧ (instCol ∉ df.cols → alookup out ipCol = some (Cell.str IP_DEFAULT))
        ∧ (instCol ∈ df.cols → ipCol ∈ df.cols → alookup out ipCol = none)
        ∧ (∀ s ip, instCol ∈ df.cols → ipCol ∉ df.cols →
            alookup r instCol = some (Cell.str s) →
            extractIPv4 s = some ip → alookup out ipCol = some (Cell.str ip))
        ∧ (∀ s, instCol ∈ df.cols → ipCol ∉ df.cols →
            alookup r instCol = some (Cell.str s) →
            extractIPv4 s = none → alookup out ipCol = some (Cell.str IP_DEFAULT))
        ∧ (∀ k, k ≠ tsCol → k ≠ ipCol → alookup out k = alookup r k))
      df.rows (insertRows df now) := by
  constructor
  · intro h
    simp [insert, Df.isEmptyDf, h]
  · unfold insertRows
    rw [List.forall₂_map_right_iff, List.forall₂_same]
    intro r hr
    have hts : (ipCol : Str) ≠ tsCol := by decide
    by_cases hin : instCol ∈ df.cols
    · by_cases hip : ipCol ∈ df.cols
      · simp only [if_pos hin, if_pos hip]
        refine ⟨?_, ?_, ?_, ?_, ?_, ?_⟩
        · rw [alookup_delCol_ne _ hts, alookup_setCol_self]
        · intro hnot
          exact absurd hin hnot
        · intro _ _
          exact alookup_delCol_self _ _
        · intro _ _ _ hnot _ _
          exact absurd hip hnot
        · intro _ _ hnot _ _
          exact absurd hip hnot
        · intro k hkts hkip
          rw [alookup_delCol_ne _ (fun e => hkip e.symm),
            alookup_setCol_ne _ _ (fun e => hkts e.symm)]
      · simp only [if_pos hin, if_neg hip]
        refine ⟨?_, ?_, ?_, ?_, ?_, ?_⟩
        · rw [alookup_setCol_ne _ _ hts, alookup_setCol_self]
        · intro hnot
          exact absurd hin hnot
        · intro _ hiff
          exact absurd hiff hip
        · intro s ip _ _ hs hex
          rw [alookup_setCol_self]
          simp [hs, hex]
        · intro s _ _ hs hex
          rw [alookup_setCol_self]
          simp [hs, hex, IP_DEFAULT]
        · intro k hkts hkip
          rw [alookup_setCol_ne _ _ (fun e => hkip e.symm),
            alookup_setCol_ne _ _ (fun e => hkts e.symm)]
    · simp only [if_neg hin]
      refine ⟨?_, ?_, ?_, ?_, ?_, ?_⟩
      · rw [alookup_setCol_ne _ _ hts, alookup_setCol_self]
      · intro _
        rw [alookup_setCol_self]
      · intro hiff
        exact absurd hiff hin
      · intro _ _ hiff
        exact absurd hiff hin
      · intro _ hiff
        exact absurd hiff hin
      · intro k hkts hkip
        rw [alookup_setCol_ne _ _ (fun e => hkip e.symm),
          alookup_setCol_ne _ _ (fun e => hkts e.symm)]

/-- C10 witness: the amended theorem applied at an empty record set. -/
theorem c10_insert_augments_witness :
    insert ⟨[], []⟩ (L "t") (Cell.num 3) = [] :=
  (c10_insert_augments ⟨[], []⟩ (L "t") (Cell.num 3)).1 rfl

end SysMon

namespace SysMon

set_option maxRecDepth 40000

/-- C5: every row kept by `calculate_rate` carries a non-negative rate: the
line-56 filter `df[value_col + "_rate"] >= 0` discards every joined pair
whose computed rate is negative (or NaN), so no emitted RatePair ever has a
negative rate. -/
theorem c5_rates_nonneg (d1 d2 : Df) (cols : List Str) (vcol : Str) (out : Df)
    (hok : calculate_rate d1 d2 cols vcol = .ok out)
    (r : Record) (hr : r ∈ out.rows) (q : ℚ)
    (hq : alookup r (vcol ++ L "_rate") = some (Cell.num q)) : 0 ≤ q := by
  simp only [calculate_rate] at hok
  split at hok
  · exact Except.noConfusion hok
  next m hm =>
    split at hok
    · simp only [Except.ok.injEq] at hok
      subst hok
      simp only [Df.rows] at hr
      rw [List.mem_filter] at hr
      have hkeep := hr.2
      unfold rateKeep at hkeep
      rw [hq] at hkeep
      exact of_decide_eq_true hkeep
    · exact Except.noConfusion hok

/-- Older snapshot frame used by the C5 witness. -/
def dfOldW : Df :=
  ⟨[devCol, valueCol], [[(devCol, Cell.str (L "sda")), (valueCol, Cell.num 0)]]⟩

/-- Newer snapshot frame used by the C5 witness. -/
def dfNewW : Df :=
  ⟨[devCol, valueCol], [[(devCol, Cell.str (L "sda")), (valueCol, Cell.num 60)]]⟩

/-- The rate frame produced from the witness snapshots. -/
def dfRateW : Df :=
  ⟨[devCol, L "value_old", L "value_new", L "value_rate"],
   [[(devCol, Cell.str (L "sda")), (L "value_old", Cell.num 0),
     (L "value_new", Cell.num 60), (L "value_rate", Cell.num 1)]]⟩

/-- C5 witness: the non-negativity theorem applied at a concrete join. -/
theorem c5_rates_nonneg_witness : (0 : ℚ) ≤ 1 :=
  c5_rates_nonneg dfOldW dfNewW [devCol] valueCol dfRateW
    (of_decide_eq_true (by with_unfolding_all rfl))
    [(devCol, Cell.str (L "sda")), (L "value_old", Cell.num 0),
     (L "value_new", Cell.num 60), (L "value_rate", Cell.num 1)]
    (of_decide_eq_true (by with_unfolding_all rfl))
    1
    (of_decide_eq_true (by with_unfolding_all rfl))

end SysMon

namespace SysMon

/-! ## Lemmas about the merged rows of `pdMerge` -/

/-- Appending different suffixes of equal length yields different strings. -/
theorem append_ne_of_suffix_ne {s1 s2 : Str} (hl : s1.length = s2.length)
    (hne : s1 ≠ s2) (a b : Str) : a ++ s1 ≠ b ++ s2 := by
  intro h
  have hlen : a.length + s1.length = b.length + s2.length := by
    have := congrArg List.length h
    simpa using this
  have hab : a.length = b.length := by omega
  exact hne (List.append_inj h hab).2

/-- Setting a non-key column does not change the join-key tuple. -/
theorem keyTuple_setCol_not_mem {keys : List Str} {kn : Str} (r : Record) (v : Cell)
    (h : kn ∉ keys) : keyTuple keys (setCol r kn v) = keyTuple keys r := by
  unfold keyTuple
  apply List.map_congr_left
  intro k hk
  exact alookup_setCol_ne _ _ (fun e => h (e ▸ hk))

/-- Removing a non-key column does not change the join-key tuple. -/
theorem keyTuple_delCol_not_mem {keys : List Str} {kn : Str} (r : Record)
    (h : kn ∉ keys) : keyTuple keys (delCol r kn) = keyTuple keys r := by
  unfold keyTuple
  apply List.map_congr_left
  intro k hk
  exact alookup_delCol_ne _ (fun e => h (e ▸ hk))

/-- Lookup of a key column in the key section of a merged row. -/
theorem alookup_keySect_some {keys : List Str} {r1 : Record} {k : Str} {c : Cell}
    (hk : k ∈ keys) (hc : alookup r1 k = some c) :
    alookup (keys.filterMap (fun j => (alookup r1 j).map (fun c0 => (j, c0)))) k = some c := by
  induction keys with
  | nil => simp at hk
  | cons j keys ih =>
      simp only [List.filterMap_cons]
      by_cases hj : j = k
      · subst hj
        simp [hc, alookup]
      · rcases List.mem_cons.mp hk with h | h
        · exact absurd h.symm hj
        · cases hcj : alookup r1 j with
          | none => simpa [hcj] using ih h
          | some cj => simpa [hcj, alookup, hj] using ih h

/-- A non-key name never occurs in the key section of a merged row. -/
theorem alookup_keySect_none {keys : List Str} {r1 : Record} {k : Str}
    (hk : k ∉ keys) :
    alookup (keys.filterMap (fun j => (alookup r1 j).map (fun c0 => (j, c0)))) k = none := by
  induction keys with
  | nil => rfl
  | cons j keys ih =>
      simp only [List.filterMap_cons]
      have hj : j ≠ k := fun e => hk (e ▸ List.mem_cons_self j keys)
      have hk' : k ∉ keys := fun e => hk (List.mem_cons_of_mem _ e)
      cases hcj : alookup r1 j with
      | none => exact ih hk'
      | some cj => simpa [alookup, hj] using ih hk'

/-- The join-key tuple of a merged row equals the left row's tuple. -/
theorem keyTuple_mergeRec {keys ov : List Str} {sx sy : Str} {r1 r2 : Record}
    (hp : ∀ k ∈ keys, (alookup r1 k).isSome = true) :
    keyTuple keys (mergeRec keys ov sx sy r1 r2) = keyTuple keys r1 := by
  unfold keyTuple
  apply List.map_congr_left
  intro k hk
  cases hc : alookup r1 k with
  | none =>
      have := hp k hk
      simp [hc] at this
  | some c =>
      unfold mergeRec
      rw [List.append_assoc]
      exact alookup_append_some _ (alookup_keySect_some hk hc)

/-- Lookup of the suffixed value column inside one suffixed section. -/
theorem alookup_suffixSect_eq (r : Record) (keys ov : List Str) (sfx vcol : Str)
    (hov : vcol ∈ ov) (hvk : vcol ∉ keys)
    (hnm : (vcol ++ sfx) ∉ r.map Prod.fst) :
    alookup ((r.filter (fun kv => kv.1 ∉ keys)).map
        (fun kv => (suffName ov sfx kv.1, kv.2))) (vcol ++ sfx)
      = alookup r vcol := by
  induction r with
  | nil => rfl
  | cons hd tl ih =>
      obtain ⟨k0, v0⟩ := hd
      simp only [List.map_cons, List.mem_cons] at hnm
      push_neg at hnm
      have ihr := ih hnm.2
      simp only [List.filter_cons]
      by_cases hk0 : k0 ∈ keys
      · have hne : k0 ≠ vcol := fun e => hvk (e ▸ hk0)
        simp only [hk0, not_true_eq_false, decide_False, Bool.false_eq_true, if_false, ihr,
          alookup, hne, if_false]
      · simp only [hk0, not_false_eq_true, decide_True, if_true, List.map_cons, alookup]
        by_cases hk0v : k0 = vcol
        · subst hk0v
          simp [suffName, hov]
        · have hsne : suffName ov sfx k0 ≠ vcol ++ sfx := by
            unfold suffName
            by_cases hk0ov : k0 ∈ ov
            · simp only [hk0ov, if_true]
              intro h
              exact hk0v (List.append_cancel_right h)
            · simp only [hk0ov, if_false]
              exact fun e => hnm.1 e.symm
          simp only [hsne, if_false, hk0v, if_false, ihr]

/-- A name no suffixed or literal column can produce is absent from one
suffixed section. -/
theorem alookup_suffixSect_none (r : Record) (keys ov : List Str) (sfx target : Str)
    (h1 : ∀ k', k' ++ sfx ≠ target) (h2 : target ∉ r.map Prod.fst) :
    alookup ((r.filter (fun kv => kv.1 ∉ keys)).map
        (fun kv => (suffName ov sfx kv.1, kv.2))) target = none := by
  induction r with
  | nil => rfl
  | cons hd tl ih =>
      obtain ⟨k0, v0⟩ := hd
      simp only [List.map_cons, List.mem_cons] at h2
      push_neg at h2
      have ihr := ih h2.2
      simp only [List.filter_cons]
      by_cases hk0 : k0 ∈ keys
      · simpa [hk0] using ihr
      · have hne : suffName ov sfx k0 ≠ target := by
          unfold suffName
          by_cases hk0ov : k0 ∈ ov
          · simpa [hk0ov] using h1 k0
          · simpa [hk0ov] using fun e => h2.1 (Eq.symm e)
        simp only [hk0, not_false_eq_true, decide_True, if_true, List.map_cons, alookup,
          hne, if_false]
        exact ihr

/-- Filtering a pairwise-key-distinct list for the key of a member yields
exactly that member. -/
theorem filter_key_single {α K : Type _} [DecidableEq K] (key : α → K) :
    ∀ (l : List α) (x : α) (c : K), x ∈ l → key x = c →
      l.Pairwise (fun a b => key a ≠ key b) →
      l.filter (fun a => decide (c = key a)) = [x] := by
  intro l
  induction l with
  | nil => intro x c hx; simp at hx
  | cons y tl ih =>
      intro x c hx hc hp
      rw [List.pairwise_cons] at hp
      simp only [List.filter_cons]
      by_cases hy : c = key y
      · have hxy : x = y := by
          rcases List.mem_cons.mp hx with h | h
          · exact h
          · exact absurd (hy.symm.trans hc.symm) (hp.1 x h)
        subst hxy
        simp only [hy, decide_True, if_true, List.cons.injEq, true_and]
        rw [List.filter_eq_nil_iff]
        intro a ha
        simp only [decide_eq_true_eq]
        intro hca
        exact (hp.1 a ha) (hy ▸ hca)
      · have hx' : x ∈ tl := by
          rcases List.mem_cons.mp hx with h | h
          · exact absurd (h ▸ hc).symm hy
          · exact h
        simp only [hy, decide_False, Bool.false_eq_true, if_false]
        exact ih x c hx' hc hp.2

/-- The rows of a successful `calculate_rate`: the merged rows, with the
rate column set per row, filtered by the non-negative-rate predicate. -/
theorem calculate_rate_ok_rows {d1 d2 : Df} {keys : List Str} {vcol : Str} {out : Df}
    (hok : calculate_rate d1 d2 keys vcol = .ok out) :
    out.rows = ((d1.rows.flatMap
        (joinRows d2.rows keys (mergeOverlap d1 d2 keys) (L "_old") (L "_new"))).map
        (setCell (vcol ++ L "_rate") (rateValue vcol))).filter
        (rateKeep (vcol ++ L "_rate")) := by
  simp only [calculate_rate] at hok
  split at hok
  · exact Except.noConfusion hok
  next m hm =>
    simp only [pdMerge] at hm
    split at hm
    · rw [Except.ok.injEq] at hm
      subst hm
      split at hok
      · rw [Except.ok.injEq] at hok
        subst hok
        simp [setColAll]
      · exact Except.noConfusion hok
    · exact Except.noConfusion hm

/-- Every output row of `calculate_rate` arises from a left row and a
key-identical right row, and keeps the left row's join-key tuple. -/
theorem mem_calculate_rate_rows {d1 d2 : Df} {keys : List Str} {vcol : Str} {out : Df}
    (hok : calculate_rate d1 d2 keys vcol = .ok out)
    (hp1 : ∀ r ∈ d1.rows, ∀ k ∈ keys, (alookup r k).isSome = true)
    (hrk : (vcol ++ L "_rate") ∉ keys)
    {r : Record} (hr : r ∈ out.rows) :
    ∃ r1 ∈ d1.rows, ∃ r2 ∈ d2.rows,
      keyTuple keys r1 = keyTuple keys r2 ∧ keyTuple keys r = keyTuple keys r1 := by
  rw [calculate_rate_ok_rows hok] at hr
  rw [List.mem_filter] at hr
  obtain ⟨hr, -⟩ := hr
  rw [List.mem_map] at hr
  obtain ⟨y, hy, rfl⟩ := hr
  rw [List.mem_flatMap] at hy
  obtain ⟨r1, hr1, hy⟩ := hy
  unfold joinRows at hy
  rw [List.mem_map] at hy
  obtain ⟨r2, hr2f, rfl⟩ := hy
  rw [List.mem_filter] at hr2f
  obtain ⟨hr2, heq⟩ := hr2f
  rw [decide_eq_true_eq] at heq
  refine ⟨r1, hr1, r2, hr2, heq, ?_⟩
  unfold setCell
  cases rateValue vcol (mergeRec keys (mergeOverlap d1 d2 keys) (L "_old") (L "_new") r1 r2) with
  | some v => rw [keyTuple_setCol_not_mem _ _ hrk, keyTuple_mergeRec (hp1 r1 hr1)]
  | none => rw [keyTuple_delCol_not_mem _ hrk, keyTuple_mergeRec (hp1 r1 hr1)]

/-- Summing a function that vanishes away from the key of a unique member. -/
theorem sum_map_single {α K : Type _} [DecidableEq K] (key : α → K) (g : α → ℕ) :
    ∀ (l : List α) (x : α) (c : K), x ∈ l → key x = c →
      l.Pairwise (fun a b => key a ≠ key b) →
      (∀ y ∈ l, key y ≠ c → g y = 0) →
      (l.map g).sum = g x := by
  intro l
  induction l with
  | nil => intro x c hx; simp at hx
  | cons y tl ih =>
      intro x c hx hc hp hz
      rw [List.pairwise_cons] at hp
      simp only [List.map_cons, List.sum_cons]
      by_cases hy : key y = c
      · have hxy : x = y := by
          rcases List.mem_cons.mp hx with h | h
          · exact h
          · exact absurd ((hc.trans hy.symm).symm) (hp.1 x h)
        subst hxy
        have hrest : (tl.map g).sum = 0 := by
          rw [List.sum_eq_zero_iff]
          intro n hn
          rw [List.mem_map] at hn
          obtain ⟨a, ha, hag⟩ := hn
          rw [← hag]
          exact hz a (List.mem_cons_of_mem _ ha) (fun e => (hp.1 a ha) (hy.trans e.symm))
        omega
      · have hx' : x ∈ tl := by
          rcases List.mem_cons.mp hx with h | h
          · exact absurd (h ▸ hc) hy
          · exact h
        have hy0 : g y = 0 := hz y (List.mem_cons_self _ _) hy
        rw [hy0, ih x c hx' hc hp.2
          (fun a ha he => hz a (List.mem_cons_of_mem _ ha) he)]
        omega

/-- C4 counterexample: two snapshots holding the same single join key, with
the counter lower in the newer snapshot (a counter reset).  Both sides carry
a label-identical sample, yet `calculate_rate` outputs zero RatePairs for
that key — the negative rate is discarded — so "each pair of samples with
identical join-key values produces exactly one RatePair" fails as stated. -/
theorem c4_counterexample_negative_delta_drops_pair :
    calculate_rate
        ⟨[devCol, valueCol], [[(devCol, Cell.str (L "sda")), (valueCol, Cell.num 10)]]⟩
        ⟨[devCol, valueCol], [[(devCol, Cell.str (L "sda")), (valueCol, Cell.num 0)]]⟩
        [devCol] valueCol
      = .ok ⟨[devCol, L "value_old", L "value_new", L "value_rate"], []⟩
    ∧ keyTuple [devCol] [(devCol, Cell.str (L "sda")), (valueCol, Cell.num 10)]
        = keyTuple [devCol] [(devCol, Cell.str (L "sda")), (valueCol, Cell.num 0)] :=
  ⟨of_decide_eq_true (by with_unfolding_all rfl),
   of_decide_eq_true (by with_unfolding_all rfl)⟩

/-- C4 (amended): with join-key tuples unique within each snapshot (and the
join/value columns not colliding with the suffixed names), the Rate
Calculator is an inner join followed by the counter-reset discard: a pair of
label-identical samples yields exactly one RatePair when its rate
`(b - a) / 60` is non-negative and zero RatePairs when it is negative, and a
sample whose join-key tuple appears in only one snapshot is referenced by
zero RatePairs. -/
theorem c4_inner_join_counts
    (d1 d2 : Df) (keys : List Str) (vcol : Str) (out : Df)
    (hok : calculate_rate d1 d2 keys vcol = .ok out)
    (hp1 : ∀ r ∈ d1.rows, ∀ k ∈ keys, (alookup r k).isSome = true)
    (hu1 : d1.rows.Pairwise (fun r r' => keyTuple keys r ≠ keyTuple keys r'))
    (hu2 : d2.rows.Pairwise (fun r r' => keyTuple keys r ≠ keyTuple keys r'))
    (hvk : vcol ∉ keys) (hv1 : vcol ∈ d1.cols) (hv2 : vcol ∈ d2.cols)
    (hok1 : (vcol ++ L "_old") ∉ keys) (hok2 : (vcol ++ L "_new") ∉ keys)
    (hrk : (vcol ++ L "_rate") ∉ keys)
    (hc1 : ∀ r ∈ d1.rows,
      (vcol ++ L "_old") ∉ r.map Prod.fst ∧ (vcol ++ L "_new") ∉ r.map Prod.fst)
    (hc2 : ∀ r ∈ d2.rows, (vcol ++ L "_new") ∉ r.map Prod.fst) :
    (∀ r1 ∈ d1.rows, ∀ r2 ∈ d2.rows, keyTuple keys r1 = keyTuple keys r2 →
      ∀ a b : ℚ, alookup r1 vcol = some (Cell.num a) →
        alookup r2 vcol = some (Cell.num b) →
        out.rows.countP (fun r => decide (keyTuple keys r = keyTuple keys r1))
          = if 0 ≤ (b - a) / RATE_DIVISOR then 1 else 0)
    ∧ (∀ r1 ∈ d1.rows, (∀ r2 ∈ d2.rows, keyTuple keys r1 ≠ keyTuple keys r2) →
        out.rows.countP (fun r => decide (keyTuple keys r = keyTuple keys r1)) = 0)
    ∧ (∀ r2 ∈ d2.rows, (∀ r1 ∈ d1.rows, keyTuple keys r1 ≠ keyTuple keys r2) →
        out.rows.countP (fun r => decide (keyTuple keys r = keyTuple keys r2)) = 0) := by
  have hov : vcol ∈ mergeOverlap d1 d2 keys := by
    unfold mergeOverlap nonKeyCols
    rw [List.mem_filter]
    refine ⟨List.mem_filter.mpr ⟨hv1, by simpa using hvk⟩, ?_⟩
    rw [decide_eq_true_eq]
    exact List.mem_filter.mpr ⟨hv2, by simpa using hvk⟩
  refine ⟨?_, ?_, ?_⟩
  · -- matched pair: one RatePair iff the rate is non-negative
    intro r1 hr1 r2 hr2 h12 a b ha hb
    rw [calculate_rate_ok_rows hok]
    rw [List.countP_filter, List.countP_map, List.countP_flatMap]
    have hmerged :
        setCell (vcol ++ L "_rate") (rateValue vcol)
            (mergeRec keys (mergeOverlap d1 d2 keys) (L "_old") (L "_new") r1 r2)
          = setCol (mergeRec keys (mergeOverlap d1 d2 keys) (L "_old") (L "_new") r1 r2)
              (vcol ++ L "_rate") (Cell.num ((b - a) / RATE_DIVISOR)) := by
      have hold : alookup
          (mergeRec keys (mergeOverlap d1 d2 keys) (L "_old") (L "_new") r1 r2)
          (vcol ++ L "_old") = some (Cell.num a) := by
        unfold mergeRec
        rw [List.append_assoc]
        rw [alookup_append_none _ (alookup_keySect_none hok1)]
        refine alookup_append_some _ ?_
        rw [alookup_suffixSect_eq r1 keys (mergeOverlap d1 d2 keys) (L "_old") vcol hov hvk
          (hc1 r1 hr1).1]
        exact ha
      have hnew : alookup
          (mergeRec keys (mergeOverlap d1 d2 keys) (L "_old") (L "_new") r1 r2)
          (vcol ++ L "_new") = some (Cell.num b) := by
        unfold mergeRec
        rw [List.append_assoc]
        rw [alookup_append_none _ (alookup_keySect_none hok2)]
        rw [alookup_append_none _ (alookup_suffixSect_none r1 keys
          (mergeOverlap d1 d2 keys) (L "_old") (vcol ++ L "_new")
          (fun k' => append_ne_of_suffix_ne (by decide) (by decide) k' vcol)
          (hc1 r1 hr1).2)]
        rw [alookup_suffixSect_eq r2 keys (mergeOverlap d1 d2 keys) (L "_new") vcol hov hvk
          (hc2 r2 hr2)]
        exact hb
      unfold setCell rateValue
      rw [hold, hnew]
    refine Eq.trans (sum_map_single (fun r' => keyTuple keys r') _
      d1.rows r1 (keyTuple keys r1) hr1 rfl hu1 ?_) ?_
    · -- rows with a different key tuple contribute nothing
      intro y hy hne
      simp only [Function.comp]
      unfold joinRows
      rw [List.countP_map, List.countP_eq_zero]
      intro r2' hr2'
      simp only [Function.comp, Bool.and_eq_true, decide_eq_true_eq, not_and]
      intro hPk
      exfalso
      apply hne
      rw [← hPk]
      unfold setCell
      cases rateValue vcol
          (mergeRec keys (mergeOverlap d1 d2 keys) (L "_old") (L "_new") y r2') with
      | some v =>
          rw [keyTuple_setCol_not_mem _ _ hrk, keyTuple_mergeRec (hp1 y hy)]
      | none =>
          rw [keyTuple_delCol_not_mem _ hrk, keyTuple_mergeRec (hp1 y hy)]
    · -- the contribution of the matching row pair
      simp only [Function.comp]
      unfold joinRows
      rw [List.countP_map]
      rw [filter_key_single (fun r' => keyTuple keys r') d2.rows r2 (keyTuple keys r1)
        hr2 h12.symm hu2]
      simp only [List.countP_cons, List.countP_nil, Function.comp]
      have hkt : keyTuple keys
          (setCol (mergeRec keys (mergeOverlap d1 d2 keys) (L "_old") (L "_new") r1 r2)
            (vcol ++ L "_rate") (Cell.num ((b - a) / RATE_DIVISOR)))
          = keyTuple keys r1 := by
        rw [keyTuple_setCol_not_mem _ _ hrk, keyTuple_mergeRec (hp1 r1 hr1)]
      simp only [hmerged, hkt, decide_True, Bool.true_and]
      unfold rateKeep
      rw [alookup_setCol_self]
      by_cases hle : 0 ≤ (b - a) / RATE_DIVISOR
      · simp [hle]
      · simp [hle]
  · -- a left sample with no key-identical right sample is never referenced
    intro r1 hr1 hno
    rw [List.countP_eq_zero]
    intro r hr hP
    rw [decide_eq_true_eq] at hP
    obtain ⟨r1', h1', r2', h2', h12, hkr⟩ := mem_calculate_rate_rows hok hp1 hrk hr
    exact hno r2' h2' ((hP.symm.trans hkr).symm ▸ h12)
  · -- a right sample with no key-identical left sample is never referenced
    intro r2 hr2 hno
    rw [List.countP_eq_zero]
    intro r hr hP
    rw [decide_eq_true_eq] at hP
    obtain ⟨r1', h1', r2', h2', h12, hkr⟩ := mem_calculate_rate_rows hok hp1 hrk hr
    exact hno r1' h1' (hkr.symm.trans hP)

/-- C4 witness: the amended join theorem applied at a concrete matched pair
with delta 60, which produces exactly one RatePair. -/
theorem c4_inner_join_counts_witness :
    dfRateW.rows.countP (fun r => decide (keyTuple [devCol] r
        = keyTuple [devCol] [(devCol, Cell.str (L "sda")), (valueCol, Cell.num 0)]))
      = if 0 ≤ ((60 : ℚ) - 0) / RATE_DIVISOR then 1 else 0 :=
  (c4_inner_join_counts dfOldW dfNewW [devCol] valueCol dfRateW
    (of_decide_eq_true (by with_unfolding_all rfl))
    (of_decide_eq_true (by with_unfolding_all rfl))
    (of_decide_eq_true (by with_unfolding_all rfl))
    (of_decide_eq_true (by with_unfolding_all rfl))
    (of_decide_eq_true (by with_unfolding_all rfl))
    (of_decide_eq_true (by with_unfolding_all rfl))
    (of_decide_eq_true (by with_unfolding_all rfl))
    (of_decide_eq_true (by with_unfolding_all rfl))
    (of_decide_eq_true (by with_unfolding_all rfl))
    (of_decide_eq_true (by with_unfolding_all rfl))
    (of_decide_eq_true (by with_unfolding_all rfl))
    (of_decide_eq_true (by with_unfolding_all rfl))).1
    [(devCol, Cell.str (L "sda")), (valueCol, Cell.num 0)]
    (of_decide_eq_true (by with_unfolding_all rfl))
    [(devCol, Cell.str (L "sda")), (valueCol, Cell.num 60)]
    (of_decide_eq_true (by with_unfolding_all rfl))
    (of_decide_eq_true (by with_unfolding_all rfl))
    0 60
    (of_decide_eq_true (by with_unfolding_all rfl))
    (of_decide_eq_true (by with_unfolding_all rfl))

end SysMon

namespace SysMon

/-! ## String lemmas for the parser round-trip -/

theorem chopLit_append (p r : Str) : chopLit p (p ++ r) = some r := by
  induction p with
  | nil => rfl
  | cons a p ih => simp [chopLit, ih]

theorem splitAtChar_append {c : Char} {l : Str} (r : Str) (h : c ∉ l) :
    splitAtChar c (l ++ c :: r) = some (l, r) := by
  induction l with
  | nil => simp [splitAtChar]
  | cons a l ih =>
      rw [List.mem_cons] at h
      push_neg at h
      simp only [List.cons_append, splitAtChar, List.append_eq]
      rw [if_neg (Ne.symm h.1), ih h.2]
      rfl

theorem takeWhile_all_append {p : Char → Bool} {l : Str} {b : Char} (r : Str)
    (hl : ∀ a ∈ l, p a = true) (hb : p b = false) :
    (l ++ b :: r).takeWhile p = l := by
  induction l with
  | nil => simp [List.takeWhile_cons, hb]
  | cons a l ih =>
      simp only [List.cons_append, List.takeWhile_cons, hl a (List.mem_cons_self _ _),
        if_true]
      rw [ih (fun x hx => hl x (List.mem_cons_of_mem _ hx))]

theorem dropWhile_all_append {p : Char → Bool} {l : Str} {b : Char} (r : Str)
    (hl : ∀ a ∈ l, p a = true) (hb : p b = false) :
    (l ++ b :: r).dropWhile p = b :: r := by
  induction l with
  | nil => simp [List.dropWhile_cons, hb]
  | cons a l ih =>
      simp only [List.cons_append, List.dropWhile_cons, hl a (List.mem_cons_self _ _),
        if_true]
      exact ih (fun x hx => hl x (List.mem_cons_of_mem _ hx))

theorem takeWhile_of_all {p : Char → Bool} {l : Str} (hl : l.all p = true) :
    l.takeWhile p = l := by
  induction l with
  | nil => rfl
  | cons a l ih =>
      rw [List.all_cons, Bool.and_eq_true] at hl
      simp [List.takeWhile_cons, hl.1, ih hl.2]

theorem not_mem_of_all {p : Char → Bool} {l : Str} {c : Char}
    (hl : l.all p = true) (hc : p c = false) : c ∉ l := by
  intro hmem
  rw [List.all_eq_true] at hl
  rw [hl c hmem] at hc
  exact Bool.noConfusion hc

theorem ne_cr_of_not_break {c : Char} (h : isLineBreak c = false) :
    c ≠ Char.ofNat 13 := by
  intro e
  subst e
  revert h
  decide

theorem splitLinesCore_of_no_break {l : Str}
    (h : ∀ c ∈ l, isLineBreak c = false) : splitLinesCore l = [l] := by
  induction l with
  | nil => rfl
  | cons a s ih =>
      have ha := h a (List.mem_cons_self _ _)
      have ha13 := ne_cr_of_not_break ha
      have hrec := ih (fun c hc => h c (List.mem_cons_of_mem _ hc))
      rw [splitLinesCore.eq_def]
      simp only [if_neg ha13, ha, hrec, Bool.false_eq_true, if_false]

theorem joinLines_ne_nil {l : Str} {ls : List Str} (h : l ≠ []) :
    joinLines (l :: ls) ≠ [] := by
  cases ls with
  | nil => simpa [joinLines] using h
  | cons l2 ls2 =>
      simp only [joinLines]
      cases l with
      | nil => exact absurd rfl h
      | cons c cs => simp

theorem splitLinesCore_append_nl {l : Str} (r : Str)
    (h : ∀ c ∈ l, isLineBreak c = false) :
    splitLinesCore (l ++ nl :: r) = l :: splitLinesCore r := by
  induction l with
  | nil =>
      rw [List.nil_append, splitLinesCore.eq_def]
      simp only [if_neg (show ¬ (nl = Char.ofNat 13) from by decide),
        show isLineBreak nl = true from by decide, if_true]
  | cons a s ih =>
      have ha := h a (List.mem_cons_self _ _)
      have ha13 := ne_cr_of_not_break ha
      have hrec := ih (fun c hc => h c (List.mem_cons_of_mem _ hc))
      rw [List.cons_append, splitLinesCore.eq_def]
      simp only [if_neg ha13, ha, hrec, Bool.false_eq_true, if_false]

theorem splitLinesCore_joinLines :
    ∀ {ls : List Str}, ls ≠ [] → (∀ l ∈ ls, ∀ c ∈ l, isLineBreak c = false) →
      splitLinesCore (joinLines ls) = ls := by
  intro ls
  induction ls with
  | nil => intro h; exact absurd rfl h
  | cons l ls ih =>
      intro _ hmem
      cases ls with
      | nil =>
          simp only [joinLines]
          exact splitLinesCore_of_no_break (hmem l (List.mem_cons_self _ _))
      | cons l2 ls2 =>
          simp only [joinLines]
          rw [splitLinesCore_append_nl _ (hmem l (List.mem_cons_self _ _))]
          rw [ih (by simp) (fun x hx => hmem x (List.mem_cons_of_mem _ hx))]

theorem pySplitlines_joinLines {ls : List Str}
    (h : ∀ l ∈ ls, (∀ c ∈ l, isLineBreak c = false) ∧ l ≠ []) :
    pySplitlines (joinLines ls) = ls := by
  cases ls with
  | nil => rfl
  | cons l tl =>
      unfold pySplitlines
      rw [if_neg (joinLines_ne_nil (h l (List.mem_cons_self _ _)).2)]
      rw [splitLinesCore_joinLines (by simp) (fun x hx => (h x hx).1)]
      have hlast : (l :: tl).getLast? ≠ some [] := by
        intro hc
        have hmem : ([] : Str) ∈ l :: tl := by
          exact List.mem_of_getLast?_eq_some hc
        exact (h [] hmem).2 rfl
      rw [if_neg hlast]

end SysMon

namespace SysMon

/-! ## Label round-trip lemmas -/

/-- Normal form of `serializeLabels` on a cons. -/
theorem serializeLabels_cons (p : Str × Str) (rest : List (Str × Str)) :
    serializeLabels (p :: rest)
      = serializeLabel1 p ++
          (match rest with
           | [] => []
           | _ :: _ => ',' :: serializeLabels rest) := by
  cases rest with
  | nil => simp [serializeLabels]
  | cons q rest => simp [serializeLabels]

/-- A character that is not a word character, `=`, a quote or a comma, and
occurs in no label value, does not occur in the serialized label block. -/
theorem not_mem_serializeLabels {c : Char} (hc1 : isWordChar c = false)
    (hc2 : c ≠ '=') (hc3 : c ≠ qt) (hc4 : c ≠ ',') :
    ∀ {pairs : List (Str × Str)},
      (∀ p ∈ pairs, p.1.all isWordChar = true ∧ c ∉ p.2) →
      c ∉ serializeLabels pairs := by
  intro pairs
  induction pairs with
  | nil => intro _; simp [serializeLabels]
  | cons p rest ih =>
      intro hgood hmem
      obtain ⟨hkw, hv⟩ := hgood p (List.mem_cons_self _ _)
      rw [serializeLabels_cons] at hmem
      rw [List.mem_append] at hmem
      rcases hmem with h | h
      · unfold serializeLabel1 at h
        rw [List.mem_append] at h
        rcases h with h | h
        · exact not_mem_of_all hkw hc1 h
        · rw [List.mem_cons] at h
          rcases h with h | h
          · exact hc2 h
          · rw [List.mem_cons] at h
            rcases h with h | h
            · exact hc3 h
            · rw [List.mem_append] at h
              rcases h with h | h
              · exact hv h
              · rw [List.mem_singleton] at h
                exact hc3 h
      · revert h
        cases rest with
        | nil => intro h; simp at h
        | cons q rest2 =>
            intro h
            rw [List.mem_cons] at h
            rcases h with h | h
            · exact hc4 h
            · exact ih (fun x hx => hgood x (List.mem_cons_of_mem _ hx)) h

/-- The anchored label attempt on a serialized pair consumes exactly it. -/
theorem tryLabelAt_serialized {k v : Str} (tail : Str)
    (hk : k ≠ []) (hkw : k.all isWordChar = true) (hv : qt ∉ v) :
    tryLabelAt (serializeLabel1 (k, v) ++ tail) = some (k, v, tail) := by
  cases k with
  | nil => exact absurd rfl hk
  | cons c k' =>
      rw [List.all_cons, Bool.and_eq_true] at hkw
      unfold serializeLabel1
      have hshape : ((c :: k') ++ ('=' :: (qt :: (v ++ [qt])))) ++ tail
          = c :: (k' ++ ('=' :: (qt :: (v ++ (qt :: tail))))) := by
        simp
      rw [hshape]
      simp only [tryLabelAt, hkw.1, if_true]
      rw [takeWhile_all_append _ (fun a ha => (List.all_eq_true.mp hkw.2) a ha) (by decide)]
      rw [dropWhile_all_append _ (fun a ha => (List.all_eq_true.mp hkw.2) a ha) (by decide)]
      simp [splitAtChar_append _ hv]

/-- A comma never starts a label match. -/
theorem tryLabelAt_comma (s : Str) : tryLabelAt (',' :: s) = none := by
  simp [tryLabelAt, isWordChar]

/-- `findLabels` consumes one serialized pair and continues. -/
theorem findLabels_label1_append {k v : Str} (tail : Str)
    (hk : k ≠ []) (hkw : k.all isWordChar = true) (hv : qt ∉ v) :
    findLabels (serializeLabel1 (k, v) ++ tail) = (k, v) :: findLabels tail := by
  have htry := tryLabelAt_serialized tail hk hkw hv
  cases k with
  | nil => exact absurd rfl hk
  | cons c k' =>
      have hcs : serializeLabel1 (c :: k', v) ++ tail
          = c :: (k' ++ ('=' :: (qt :: (v ++ (qt :: tail))))) := by
        simp [serializeLabel1]
      rw [hcs] at htry ⊢
      exact findLabels_cons_match htry

/-- `findLabels` inverts `serializeLabels` for well-formed label lists. -/
theorem findLabels_serializeLabels :
    ∀ (pairs : List (Str × Str)),
      (∀ p ∈ pairs, p.1 ≠ [] ∧ p.1.all isWordChar = true ∧ qt ∉ p.2) →
      findLabels (serializeLabels pairs) = pairs := by
  intro pairs
  induction pairs with
  | nil => intro _; rfl
  | cons p rest ih =>
      obtain ⟨k, v⟩ := p
      intro hgood
      obtain ⟨hk, hkw, hv⟩ := hgood (k, v) (List.mem_cons_self _ _)
      cases rest with
      | nil =>
          show findLabels (serializeLabel1 (k, v)) = [(k, v)]
          rw [(List.append_nil (serializeLabel1 (k, v))).symm]
          rw [findLabels_label1_append [] hk hkw hv]
          rfl
      | cons q rest2 =>
          show findLabels (serializeLabel1 (k, v) ++ (',' :: serializeLabels (q :: rest2)))
            = (k, v) :: q :: rest2
          rw [findLabels_label1_append _ hk hkw hv]
          rw [findLabels_cons_skip (tryLabelAt_comma _)]
          rw [ih (fun x hx => hgood x (List.mem_cons_of_mem _ hx))]

/-- No key means no last value. -/
theorem lastLookup_none {l : List (Str × Cell)} {k : Str}
    (h : k ∉ l.map Prod.fst) : lastLookup l k = none := by
  unfold lastLookup
  have : l.filter (fun p => p.1 = k) = [] := by
    rw [List.filter_eq_nil_iff]
    intro p hp
    simp only [decide_eq_true_eq]
    intro e
    exact h (List.mem_map.mpr ⟨p, hp, e⟩)
  rw [this]
  rfl

/-- `dict(pairs)` is the identity on lists with pairwise-distinct keys. -/
theorem dedupPairs_nodup :
    ∀ (l : List (Str × Cell)), (l.map Prod.fst).Nodup → dedupPairs l = l := by
  have go : ∀ (l : List (Str × Cell)), (l.map Prod.fst).Nodup →
      dedupPairsGo l.length l = l := by
    intro l
    induction l with
    | nil => intro _; rfl
    | cons p rest ih =>
        obtain ⟨k, v⟩ := p
        intro hnd
        rw [List.map_cons, List.nodup_cons] at hnd
        simp only [List.length_cons, dedupPairsGo]
        rw [lastLookup_none hnd.1]
        have hfil : rest.filter (fun p => p.1 ≠ k) = rest := by
          rw [List.filter_eq_self]
          intro p hp
          simp only [ne_eq, decide_not, Bool.not_eq_eq_eq_not, Bool.not_true,
            decide_eq_false_iff_not]
          intro e
          exact hnd.1 (List.mem_map.mpr ⟨p, hp, e⟩)
        rw [hfil, ih hnd.2]
        rfl
  intro l h
  exact go l h

/-- Setting an absent key appends it. -/
theorem setCol_append_of_not_mem {r : Record} {k : Str} (v : Cell)
    (h : k ∉ r.map Prod.fst) : setCol r k v = r ++ [(k, v)] := by
  induction r with
  | nil => rfl
  | cons p rest ih =>
      obtain ⟨k0, v0⟩ := p
      rw [List.map_cons, List.mem_cons] at h
      push_neg at h
      simp only [setCol, Ne.symm h.1, if_false, List.cons_append]
      rw [ih h.2]

end SysMon

namespace SysMon

/-! ## The parser round-trip (C6) -/

/-- Well-formedness of one synthetic label pair: nonempty word-character
key; value free of quotes, closing braces and every `str.splitlines`
line-break character. -/
def goodLabel (p : Str × Str) : Bool :=
  decide (p.1 ≠ []) && p.1.all isWordChar && decide (qt ∉ p.2)
    && decide (rbrace ∉ p.2) && p.2.all (fun c => !(isLineBreak c))

/-- Well-formedness of one synthetic sample: good labels with distinct keys
not colliding with the value column, and a nonempty value literal over the
value character class that Python `float()` accepts. -/
def goodSample (vname : Str) (s : List (Str × Str) × Str) : Bool :=
  s.1.all goodLabel && decide ((s.1.map Prod.fst).Nodup)
    && decide (vname ∉ s.1.map Prod.fst)
    && decide (s.2 ≠ []) && s.2.all isValueChar && (pyFloat s.2).isSome

/-- The line regex recovers the label block and the value literal from a
serialized sample line. -/
theorem matchLine_serialize (name : Str) (pairs : List (Str × Str)) (lit : Str)
    (hlab : rbrace ∉ serializeLabels pairs)
    (hlit : lit ≠ []) (hlitc : lit.all isValueChar = true) :
    matchLine name false (serializeSampleLine name pairs lit)
      = some (serializeLabels pairs, lit) := by
  unfold matchLine serializeSampleLine matchValue
  simp only [chopLit_append]
  simp only [if_pos rfl, splitAtChar_append _ hlab]
  simp [takeWhile_of_all hlitc, hlit]

/-- A line-break character is not a word character. -/
theorem not_word_of_break {c : Char} (h : isLineBreak c = true) :
    isWordChar c = false := by
  unfold isLineBreak at h
  simp only [Bool.or_eq_true, decide_eq_true_eq] at h
  rcases h with ((((((((h | h) | h) | h) | h) | h) | h) | h) | h) | h <;>
    subst h <;> decide

/-- A line-break character is not in the value character class. -/
theorem not_value_of_break {c : Char} (h : isLineBreak c = true) :
    isValueChar c = false := by
  unfold isLineBreak at h
  simp only [Bool.or_eq_true, decide_eq_true_eq] at h
  rcases h with ((((((((h | h) | h) | h) | h) | h) | h) | h) | h) | h <;>
    subst h <;> decide

/-- A serialized sample line contains no line-break character. -/
theorem serializeSampleLine_break_free {name : Str} {pairs : List (Str × Str)}
    {lit : Str} {c : Char} (hc : isLineBreak c = true)
    (hname : ∀ x ∈ name, isLineBreak x = false)
    (hpairs : ∀ p ∈ pairs, p.1.all isWordChar = true
      ∧ (∀ x ∈ p.2, isLineBreak x = false))
    (hlitc : lit.all isValueChar = true) :
    c ∉ serializeSampleLine name pairs lit := by
  unfold serializeSampleLine
  intro h
  rw [List.mem_append] at h
  rcases h with h | h
  · rw [hname c h] at hc
    exact Bool.noConfusion hc
  · rw [List.mem_cons] at h
    rcases h with h | h
    · subst h
      exact absurd hc (by decide)
    · rw [List.mem_append] at h
      rcases h with h | h
      · refine not_mem_serializeLabels (not_word_of_break hc) ?_ ?_ ?_ ?_ h
        · intro e; subst e; exact absurd hc (by decide)
        · intro e; subst e; exact absurd hc (by decide)
        · intro e; subst e; exact absurd hc (by decide)
        · intro p hp
          refine ⟨(hpairs p hp).1, fun hmem => ?_⟩
          rw [(hpairs p hp).2 c hmem] at hc
          exact Bool.noConfusion hc
      · rw [List.mem_cons] at h
        rcases h with h | h
        · subst h
          exact absurd hc (by decide)
        · rw [List.mem_cons] at h
          rcases h with h | h
          · subst h
            exact absurd hc (by decide)
          · exact not_mem_of_all hlitc (not_value_of_break hc) h

/-- A serialized sample line is nonempty. -/
theorem serializeSampleLine_ne_nil (name : Str) (pairs : List (Str × Str))
    (lit : Str) : serializeSampleLine name pairs lit ≠ [] := by
  unfold serializeSampleLine
  intro h
  rw [List.append_eq_nil] at h
  exact List.noConfusion h.2

/-- The parse loop inverts the serializer line by line. -/
theorem parseLines_serialize (name vname : Str) :
    ∀ (samples : List (List (Str × Str) × Str)),
      (∀ s ∈ samples, goodSample vname s = true) →
      parseLines name false vname
          (samples.map (fun s => serializeSampleLine name s.1 s.2))
        = .ok (samples.map (fun s =>
            s.1.map (fun kv => (kv.1, Cell.str kv.2))
              ++ [(vname, Cell.num ((pyFloat s.2).getD 0))])) := by
  intro samples
  induction samples with
  | nil => intro _; rfl
  | cons s rest ih =>
      intro hgood
      obtain ⟨pairs, lit⟩ := s
      have hs := hgood _ (List.mem_cons_self _ _)
      unfold goodSample at hs
      simp only [Bool.and_eq_true, decide_eq_true_eq] at hs
      obtain ⟨⟨⟨⟨⟨hall, hnd⟩, hvn⟩, hlit⟩, hlitc⟩, hflo⟩ := hs
      have hlabgood : ∀ p ∈ pairs, p.1 ≠ [] ∧ p.1.all isWordChar = true ∧ qt ∉ p.2 := by
        intro p hp
        have := List.all_eq_true.mp hall p hp
        unfold goodLabel at this
        simp only [Bool.and_eq_true, decide_eq_true_eq] at this
        exact ⟨this.1.1.1.1, this.1.1.1.2, this.1.1.2⟩
      have hlabrb : ∀ p ∈ pairs, p.1.all isWordChar = true ∧ rbrace ∉ p.2 := by
        intro p hp
        have := List.all_eq_true.mp hall p hp
        unfold goodLabel at this
        simp only [Bool.and_eq_true, decide_eq_true_eq] at this
        exact ⟨this.1.1.1.2, this.1.2⟩
      have hlab : rbrace ∉ serializeLabels pairs :=
        not_mem_serializeLabels (by decide) (by decide) (by decide) (by decide) hlabrb
      simp only [List.map_cons, parseLines]
      rw [matchLine_serialize name pairs lit hlab hlit hlitc]
      obtain ⟨q, hq⟩ := Option.isSome_iff_exists.mp hflo
      simp only [hq]
      rw [ih (fun x hx => hgood x (List.mem_cons_of_mem _ hx))]
      simp only [Except.map]
      have hrec : mkRecord (serializeLabels pairs) vname q
          = pairs.map (fun kv => (kv.1, Cell.str kv.2))
              ++ [(vname, Cell.num ((pyFloat lit).getD 0))] := by
        unfold mkRecord
        rw [findLabels_serializeLabels pairs hlabgood]
        have hkeys : ((pairs.map (fun kv => (kv.1, Cell.str kv.2))).map Prod.fst)
            = pairs.map Prod.fst := by
          induction pairs with
          | nil => rfl
          | cons a t iht => simp [iht]
        rw [dedupPairs_nodup _ (hkeys ▸ hnd)]
        rw [setCol_append_of_not_mem _ (hkeys ▸ hvn)]
        rw [hq]
        rfl
      rw [hrec, hq]

/-- C6 (amended): serializing any synthetic sample set of one metric family
and parsing it back with `parse_metric` recovers exactly that sample list —
provided every label key is a nonempty word-character string, keys are
unique within a sample and distinct from the value column, label values
contain no quote, no closing brace and no newline, and each value literal
is float text over `[0-9.e+-]`.  The original claim, which allowed closing
braces (and line-break characters) in label values, is false: see the
counterexample. -/
theorem c6_roundtrip_restricted (name vname : Str)
    (samples : List (List (Str × Str) × Str))
    (hname : ∀ c ∈ name, isLineBreak c = false)
    (hs : ∀ s ∈ samples, goodSample vname s = true) :
    parse_metric name false (serializeExposition name samples) vname
      = .ok (dfOfRecords (samples.map (fun s =>
          s.1.map (fun kv => (kv.1, Cell.str kv.2))
            ++ [(vname, Cell.num ((pyFloat s.2).getD 0))]))) := by
  unfold parse_metric serializeExposition
  have hlines : ∀ l ∈ samples.map (fun s => serializeSampleLine name s.1 s.2),
      (∀ c ∈ l, isLineBreak c = false) ∧ l ≠ [] := by
    intro l hl
    rw [List.mem_map] at hl
    obtain ⟨s, hsmem, rfl⟩ := hl
    have hgs := hs s hsmem
    unfold goodSample at hgs
    simp only [Bool.and_eq_true, decide_eq_true_eq] at hgs
    obtain ⟨⟨⟨⟨⟨hall, -⟩, -⟩, -⟩, hlitc⟩, -⟩ := hgs
    have hpnl : ∀ p ∈ s.1, p.1.all isWordChar = true
        ∧ (∀ x ∈ p.2, isLineBreak x = false) := by
      intro p hp
      have := List.all_eq_true.mp hall p hp
      unfold goodLabel at this
      simp only [Bool.and_eq_true, decide_eq_true_eq] at this
      refine ⟨this.1.1.1.2, fun x hx => ?_⟩
      have hv := List.all_eq_true.mp this.2 x hx
      rwa [Bool.not_eq_true'] at hv
    refine ⟨fun c hcl => ?_, serializeSampleLine_ne_nil _ _ _⟩
    cases hb : isLineBreak c with
    | false => rfl
    | true => exact absurd hcl (serializeSampleLine_break_free hb hname hpnl hlitc)
  rw [pySplitlines_joinLines hlines]
  rw [parseLines_serialize name vname samples hs]
  rfl

/-- C6 witness: the restricted round-trip applied at a concrete sample. -/
theorem c6_roundtrip_restricted_witness :
    parse_metric cpuName false
        (serializeExposition cpuName [([(L "cpu", L "0")], L "2.5")]) valueCol
      = .ok (dfOfRecords ([([(L "cpu", L "0")], L "2.5")].map (fun s =>
          s.1.map (fun kv => (kv.1, Cell.str kv.2))
            ++ [(valueCol, Cell.num ((pyFloat s.2).getD 0))]))) :=
  c6_roundtrip_restricted cpuName valueCol [([(L "cpu", L "0")], L "2.5")]
    (of_decide_eq_true (by with_unfolding_all rfl))
    (of_decide_eq_true (by with_unfolding_all rfl))

/-- C6 counterexample: a label value containing a closing brace — allowed by
the claim, which only excludes unescaped quotes — breaks the round trip: the
line regex `[^}]*` stops at the first closing brace, the line fails to match
and is skipped, so parsing returns an empty sample set instead of the
serialized one. -/
theorem c6_counterexample_rbrace_value :
    parse_metric cpuName false
        (serializeExposition cpuName [([(L "d", [rbrace])], L "5")]) valueCol
      = .ok (dfOfRecords [])
    ∧ dfOfRecords ([] : List Record)
        ≠ dfOfRecords [[(L "d", Cell.str [rbrace]), (valueCol, Cell.num 5)]] :=
  ⟨of_decide_eq_true (by with_unfolding_all rfl),
   of_decide_eq_true (by with_unfolding_all rfl)⟩

end SysMon
